import Mathlib

/-
Verification of `consolidate.py`, a script that merges acronym-definition
files (`\acrodef`, `\newacronym`, `\newcommand` directives) from several
locations into one deduplicated file, keeping the most recently modified
version of each label.

The development shallowly embeds the script: Python `datetime` values become
a record of calendar fields plus a timezone-awareness flag (aware values are
stored UTC-normalized, matching Python's comparison semantics), fallible
operations return `Except PyExn`, the external environment (git subprocess,
filesystem, file contents) is an explicit record, and the regular-expression
extraction is run on a small backtracking engine that mirrors the Python `re`
module's leftmost, priority-ordered backtracking search.
-/

namespace Consolidate

/-! ## Model of Python `datetime` values

Python's `datetime` compares field-lexicographically between two naive or two
aware values (aware values are compared after conversion to UTC; the model
stores aware values already UTC-normalized), and raises `TypeError` when one
value is naive and the other aware. -/

inductive Awareness where
  | naive
  | aware
deriving DecidableEq, Repr

structure PyDateTime where
  year : Nat
  month : Nat
  day : Nat
  /-- seconds elapsed within the day (collapses hour/minute/second). -/
  sod : Nat
  tz : Awareness
deriving DecidableEq, Repr

/-- `datetime.min` is `0001-01-01 00:00:00`, timezone-naive. -/
def datetime_min : PyDateTime := ⟨1, 1, 1, 0, .naive⟩

/-- Real Python datetimes have year ≥ 1 (MINYEAR), month ≥ 1, day ≥ 1. -/
def PyDateTime.valid (d : PyDateTime) : Prop :=
  1 ≤ d.year ∧ 1 ≤ d.month ∧ 1 ≤ d.day

instance (d : PyDateTime) : Decidable d.valid := by
  unfold PyDateTime.valid; infer_instance

/-- Field-lexicographic strict order on datetime fields. -/
def dateLtB (a b : PyDateTime) : Bool :=
  if a.year ≠ b.year then decide (a.year < b.year)
  else if a.month ≠ b.month then decide (a.month < b.month)
  else if a.day ≠ b.day then decide (a.day < b.day)
  else decide (a.sod < b.sod)

inductive PyExn where
  | typeError
  | fileNotFoundError
  | ioError
deriving DecidableEq, Repr

instance {ε α : Type} [DecidableEq ε] [DecidableEq α] : DecidableEq (Except ε α) :=
  fun a b =>
    match a, b with
    | .ok x, .ok y => decidable_of_iff (x = y) (by simp)
    | .error e, .error f => decidable_of_iff (e = f) (by simp)
    | .error _, .ok _ => isFalse (fun h => Except.noConfusion h)
    | .ok _, .error _ => isFalse (fun h => Except.noConfusion h)

/-- Python's `a > b` on two datetimes: `TypeError` when exactly one of the two
is timezone-aware, otherwise the field comparison. -/
def pyGT (a b : PyDateTime) : Except PyExn Bool :=
  if a.tz = b.tz then .ok (dateLtB b a) else .error .typeError

/-! ## Entries and the consolidated mapping -/

/-- One extracted definition: the tuple
`(label, definition, def_type, file_date, source_file)` built in
`read_acrodefs`. -/
structure Entry where
  label : String
  definition : String
  def_type : String
  file_date : PyDateTime
  source_file : String
deriving DecidableEq, Repr

/-- The value stored in the consolidated `OrderedDict`:
`(definition, def_type, date, source_file)`. -/
structure Stored where
  definition : String
  def_type : String
  date : PyDateTime
  source : String
deriving DecidableEq, Repr

def Entry.toStored (e : Entry) : Stored :=
  ⟨e.definition, e.def_type, e.file_date, e.source_file⟩

/-- The consolidated `OrderedDict`, as an insertion-ordered association
list. -/
abbrev MapT := List (String × Stored)

/-- `datetime.strftime('%Y-%m-%d')`: on glibc `%Y` prints the year without
padding, `%m` and `%d` are zero-padded to two digits. -/
def pad2 (n : Nat) : String := if n < 10 then "0" ++ toString n else toString n

def fmtDate (d : PyDateTime) : String :=
  toString d.year ++ "-" ++ pad2 d.month ++ "-" ++ pad2 d.day

/-- Decision diagnostics printed by the merge loop. -/
inductive Diag where
  | updating (label newDate oldDate : String)
  | skippingOlder (label date : String)
deriving DecidableEq, Repr

/-- `OrderedDict` assignment to an existing key: the value is replaced, the
key keeps its position. -/
def updateA (m : MapT) (k : String) (v : Stored) : MapT :=
  m.map fun p => if p.1 = k then (k, v) else p

/-- The body of the merge loop in `consolidate_acrodefs` (lines 89–103):
unseen labels are inserted; a byte-identical definition is skipped silently;
a differing definition replaces the stored one exactly when its date compares
strictly newer, where the date comparison may raise `TypeError`. -/
def mergeStep (st : MapT × List Diag) (e : Entry) : Except PyExn (MapT × List Diag) :=
  match st.1.lookup e.label with
  | none => .ok (st.1 ++ [(e.label, e.toStored)], st.2)
  | some ex =>
    if e.definition = ex.definition then
      .ok st
    else do
      let isNewer ← pyGT e.file_date ex.date
      if isNewer then
        .ok (updateA st.1 e.label e.toStored,
             st.2 ++ [.updating e.label (fmtDate e.file_date) (fmtDate ex.date)])
      else
        .ok (st.1, st.2 ++ [.skippingOlder e.label (fmtDate e.file_date)])

def mergeEntries (es : List Entry) (st : MapT × List Diag) :
    Except PyExn (MapT × List Diag) :=
  es.foldlM mergeStep st

/-! ## Backtracking regular-expression engine

A small engine for the fragment of Python `re` used by the three patterns:
literals, character classes (positive and negated), concatenation,
alternation (used for the optional `(?:...)?`, which greedily tries its body
first), greedy and lazy star, and capturing groups.  `run re s` returns every
way the pattern can match a prefix of `s`, as `(consumed length, captures)`
pairs, **in Python's backtracking priority order**; the first element is the
match Python reports.  The guard `0 < p.1` in the star cases terminates
iteration on an empty-width body match (none of the three patterns has such a
body); the guard `p.1 ≤ s.length` always holds for results of `run` and only
serves termination. -/

inductive RE where
  | eps
  | lit (c : Char)
  | cls (neg : Bool) (cs : List Char)
  | seq (a b : RE)
  | alt (a b : RE)
  | starG (a : RE)
  | starL (a : RE)
  | group (i : Nat) (a : RE)
deriving Repr

abbrev Caps := List (Nat × String)

def run : RE → List Char → List (Nat × Caps)
  | .eps, _ => [(0, [])]
  | .lit c, s =>
    match s with
    | [] => []
    | a :: _ => if a = c then [(1, [])] else []
  | .cls neg cs, s =>
    match s with
    | [] => []
    | a :: _ => if cs.contains a = !neg then [(1, [])] else []
  | .seq a b, s =>
    (run a s).flatMap fun p =>
      (run b (s.drop p.1)).map fun q => (p.1 + q.1, p.2 ++ q.2)
  | .alt a b, s => run a s ++ run b s
  | .starG a, s =>
    ((run a s).flatMap fun p =>
      if _h : 0 < p.1 ∧ p.1 ≤ s.length then
        (run (.starG a) (s.drop p.1)).map fun q => (p.1 + q.1, p.2 ++ q.2)
      else []) ++ [(0, [])]
  | .starL a, s =>
    (0, []) :: (run a s).flatMap fun p =>
      if _h : 0 < p.1 ∧ p.1 ≤ s.length then
        (run (.starL a) (s.drop p.1)).map fun q => (p.1 + q.1, p.2 ++ q.2)
      else []
  | .group i a, s =>
    (run a s).map fun p => (p.1, (i, String.mk (s.take p.1)) :: p.2)
termination_by re s => (s.length, sizeOf re)
decreasing_by
  all_goals (simp [List.length_drop]; omega)

/-- `re.finditer`: scan left to right, report the first (priority-maximal)
match at the leftmost matching position, then continue after it
(non-overlapping; an empty-width match advances by one). -/
def scan (re : RE) : List Char → List (String × Caps)
  | [] =>
    match (run re []).head? with
    | some p => [(String.mk [], p.2)]
    | none => []
  | c :: t =>
    match (run re (c :: t)).head? with
    | some p =>
      (String.mk ((c :: t).take p.1), p.2) :: scan re ((c :: t).drop (max p.1 1))
    | none => scan re t
termination_by s => s.length
decreasing_by
  all_goals simp

/-! ## The three patterns of `read_acrodefs`

The Python source (lines 45–49):
```
acrodef_pattern    = r'\acrodef\s*\{([^}]+)\}\s*\{([^}]*(?:\{[^}]*\}[^}]*)*)\}'
newacronym_pattern = r'\newacronym(?:\[.*?\])?\s*\{([^}]+)\}\s*\{([^}]+)\}\s*\{([^}]+)\}'
newcommand_pattern = r'\newcommand\s*\{([^}]+)\}(?:\[.*?\])?\s*\{([^}]*(?:\{[^}]*\}[^}]*)*)\}'
```
compiled without `re.DOTALL` (so `.` excludes the newline) and with
`re.MULTILINE` (irrelevant: no anchors occur). -/

/-- chain a string of literals in front of a pattern, right-nested. -/
def lits : List Char → RE → RE
  | [], k => k
  | c :: cs, k => .seq (.lit c) (lits cs k)

/-- `\s` (the ASCII part; the inputs considered contain no other
whitespace). -/
def wsChars : List Char := [' ', '\t', '\n', '\r', '\x0b', '\x0c']

def wsStar : RE := .starG (.cls false wsChars)

/-- `[^}]` -/
def nb : RE := .cls true ['}']

/-- `([^}]+)` captured as group `i`. -/
def nbPlus (i : Nat) : RE :=
  .group i (.seq nb (.starG nb))

/-- `\{[^}]*\}[^}]*` -/
def grpIter : RE :=
  .seq (.lit '{') (.seq (.starG nb) (.seq (.lit '}') (.starG nb)))

/-- `(?:\{[^}]*\}[^}]*)*` -/
def grpStar : RE := .starG grpIter

/-- `([^}]*(?:\{[^}]*\}[^}]*)*)` captured as group `i`. -/
def bodyGroup (i : Nat) : RE :=
  .group i (.seq (.starG nb) grpStar)

/-- `(?:\[.*?\])?` — greedy option around a lazy dot-star. -/
def optBracket : RE :=
  .alt (.seq (.lit '[') (.seq (.starL (.cls true ['\n'])) (.lit ']'))) .eps

def acrodef_pattern : RE :=
  lits "\\acrodef".data <|
    .seq wsStar (.seq (.lit '{') (.seq (nbPlus 1) (.seq (.lit '}')
      (.seq wsStar (.seq (.lit '{') (.seq (bodyGroup 2) (.lit '}')))))))

def newacronym_pattern : RE :=
  lits "\\newacronym".data <|
    .seq optBracket (.seq wsStar (.seq (.lit '{') (.seq (nbPlus 1)
      (.seq (.lit '}') (.seq wsStar (.seq (.lit '{') (.seq (nbPlus 2)
        (.seq (.lit '}') (.seq wsStar (.seq (.lit '{') (.seq (nbPlus 3)
          (.lit '}'))))))))))))

def newcommand_pattern : RE :=
  lits "\\newcommand".data <|
    .seq wsStar (.seq (.lit '{') (.seq (nbPlus 1) (.seq (.lit '}')
      (.seq optBracket (.seq wsStar (.seq (.lit '{') (.seq (bodyGroup 2)
        (.lit '}'))))))))

/-- `match.group(1)` (present on every successful match of the three
patterns). -/
def capture1 (caps : Caps) : String := (caps.lookup 1).getD ""

/-- `str.strip()` (its ASCII whitespace part; the inputs considered contain
no other whitespace characters). -/
def pyStrip (s : String) : String :=
  ⟨((s.data.dropWhile (· ∈ wsChars)).reverse.dropWhile (· ∈ wsChars)).reverse⟩

/-- `read_acrodefs` (lines 37–69): `content = none` models an exception while
opening or reading the file, which is caught, reported, and yields the empty
list.  Otherwise the three patterns are scanned in order, each match becoming
`(label, full_match, def_type, file_date, file_path)` with the label the
stripped first capture group. -/
def read_acrodefs (content : Option String) (file_date : PyDateTime)
    (file_path : String) : List Entry :=
  match content with
  | none => []
  | some content =>
    ((scan acrodef_pattern content.data).map fun m =>
      ⟨pyStrip (capture1 m.2), m.1, "acrodef", file_date, file_path⟩) ++
    ((scan newacronym_pattern content.data).map fun m =>
      ⟨pyStrip (capture1 m.2), m.1, "newacronym", file_date, file_path⟩) ++
    ((scan newcommand_pattern content.data).map fun m =>
      ⟨pyStrip (capture1 m.2), m.1, "newcommand", file_date, file_path⟩)

/-! ## The external environment, `get_file_date`, and the driver -/

inductive GitOutcome where
  /-- `subprocess.TimeoutExpired` — in the `except` tuple, caught. -/
  | timeoutExpired
  /-- `subprocess.SubprocessError` — in the `except` tuple, caught. -/
  | subprocessError
  /-- `FileNotFoundError`: the `git` executable is absent.  An `OSError`
  subclass, **not** a `subprocess.SubprocessError`, hence not caught by
  `except (subprocess.TimeoutExpired, subprocess.SubprocessError,
  ValueError)`. -/
  | binaryMissing
  /-- The subprocess completed with this return code and stdout; `parsed`
  models `datetime.fromisoformat(stdout.strip().replace('Z', '+00:00'))`,
  with `none` standing for a `ValueError` (which is caught). -/
  | completed (returncode : Int) (stdout : String) (parsed : Option PyDateTime)

inductive FsOutcome where
  /-- `os.path.getmtime` succeeds; `datetime.fromtimestamp` then yields a
  timezone-**naive** value with these fields. -/
  | mtime (year month day sod : Nat)
  /-- `OSError` — caught. -/
  | osError

/-- Everything the script observes about one path. -/
structure FileEnv where
  path_exists : Bool
  git : GitOutcome
  fs : FsOutcome
  /-- `none`: opening/reading the file raised (caught in `read_acrodefs`). -/
  content : Option String

/-- Lines 30–35: filesystem fallback, then `datetime.min` on `OSError`. -/
def fsFallback (fe : FileEnv) : Except PyExn PyDateTime :=
  match fe.fs with
  | .mtime y mo d sod => .ok ⟨y, mo, d, sod, .naive⟩
  | .osError => .ok datetime_min

/-- `get_file_date` (lines 13–35).  The `try` block returns the parsed git
date only when the return code is 0 and the stripped stdout is nonempty;
`TimeoutExpired`, `SubprocessError` and `ValueError` fall through to the
filesystem fallback, but a missing `git` binary raises `FileNotFoundError`,
which the `except` tuple does not cover. -/
def get_file_date (fe : FileEnv) : Except PyExn PyDateTime :=
  match fe.git with
  | .timeoutExpired => fsFallback fe
  | .subprocessError => fsFallback fe
  | .binaryMissing => .error .fileNotFoundError
  | .completed rc out parsed =>
    if rc = 0 ∧ pyStrip out ≠ "" then
      match parsed with
      | some d => .ok d
      | none => fsFallback fe
    else fsFallback fe

/-- The whole environment of a run: `list_file = none` models `open(list_file)`
raising (list file missing or unreadable). -/
structure Env where
  list_file : Option (List String)
  files : String → FileEnv

/-- `file_path.startswith('#')`. -/
def startsWithHash (s : String) : Bool := s.data.head? == some '#'

/-- One iteration of the `for line in f` loop of `consolidate_acrodefs`
(lines 78–105): strip the line, skip blanks and comments, skip (with a
warning) nonexistent paths, otherwise resolve the date — whose uncaught
exceptions propagate — extract, and merge each definition. -/
def processLine (files : String → FileEnv) (st : MapT × List Diag) (line : String) :
    Except PyExn (MapT × List Diag) :=
  let file_path := pyStrip line
  if file_path = "" then .ok st
  else if startsWithHash file_path then .ok st
  else if (files file_path).path_exists then do
    let file_date ← get_file_date (files file_path)
    mergeEntries (read_acrodefs (files file_path).content file_date file_path) st
  else .ok st

/-- `consolidate_acrodefs` (lines 71–107). -/
def consolidate_acrodefs (env : Env) : Except PyExn (MapT × List Diag) :=
  match env.list_file with
  | none => .error .ioError
  | some lines => lines.foldlM (processLine env.files) ([], [])

/-! ## The writer -/

/-- `source.replace('../../', '')`: Python `str.replace` removes **every**
occurrence, scanning left to right, non-overlapping. -/
def stripDots : List Char → List Char
  | '.' :: '.' :: '/' :: '.' :: '.' :: '/' :: t => stripDots t
  | c :: t => c :: stripDots t
  | [] => []

def short_source (s : String) : String := ⟨stripDots s.data⟩

/-- `sorted(...)` on the per-category `(label, defn, date, source)` tuples:
Python's stable ascending sort compares the tuples lexicographically, and
the labels — keys of the consolidated dict — are pairwise distinct, so the
comparison never reaches the later components; sorting (stably) by label
alone is therefore the same function. -/
def sortByLabel (l : List (String × Stored)) : List (String × Stored) :=
  l.insertionSort (fun a b => a.1 ≤ b.1)

instance : IsTotal (String × Stored) (fun a b => a.1 ≤ b.1) :=
  ⟨fun a b => le_total a.1 b.1⟩

instance : IsTrans (String × Stored) (fun a b => a.1 ≤ b.1) :=
  ⟨fun _ _ _ h1 h2 => le_trans h1 h2⟩

/-- The list comprehensions of lines 118–120, filtering by `def_type` in
insertion order. -/
def groupOf (consolidated : MapT) (t : String) : List (String × Stored) :=
  consolidated.filter fun p => p.2.def_type = t

/-- The two `f.write` calls per entry (lines 125–129). -/
def entryChunks (p : String × Stored) : List String :=
  ["% Last updated: " ++ fmtDate p.2.date ++ " from " ++ short_source p.2.source ++ "\n",
   p.2.definition ++ "\n"]

/-- One `if <group>:` block of the writer: header comment, sorted entries,
then one blank line; nothing at all when the group is empty. -/
def sectionChunks (header : String) (grp : List (String × Stored)) : List String :=
  if grp = [] then []
  else header :: ((sortByLabel grp).flatMap entryChunks ++ ["\n"])

def headerChunks (now : String) : List String :=
  ["% Consolidated acrodefs.tex\n",
   "% Auto-generated - DO NOT EDIT MANUALLY\n",
   "% Generated from multiple sources\n",
   "% Generated on: " ++ now ++ "\n\n"]

/-- `write_consolidated_file` (lines 109–148), as the list of strings passed
to `f.write` in order; `now` is the wall-clock `datetime.now().strftime(...)`
rendering. -/
def write_consolidated_file (consolidated : MapT) (now : String) : List String :=
  headerChunks now ++
  sectionChunks "% Acronyms (acrodef)\n" (groupOf consolidated "acrodef") ++
  sectionChunks "% Acronyms (newacronym)\n" (groupOf consolidated "newacronym") ++
  sectionChunks "% Commands\n" (groupOf consolidated "newcommand")

/-- `__main__` (lines 150–163): consolidate, then write.  An uncaught
exception aborts the process with a nonzero exit before the output file is
opened, so the output is produced exactly when consolidation returns. -/
def run_main (env : Env) (now : String) : Except PyExn (List String) := do
  let st ← consolidate_acrodefs env
  .ok (write_consolidated_file st.1 now)

/-! ## Claim-side (spec-worded) definitions, for comparison with the code -/

/-- Spec-side, claim C8: strip only a *leading* `../../` occurrence. -/
def leadingStrip (s : String) : String :=
  match s.data with
  | '.' :: '.' :: '/' :: '.' :: '.' :: '/' :: t => ⟨t⟩
  | _ => s

/-- Spec-side, claim C1: of two candidate entries, keep the later one exactly
when its timestamp is strictly greater. -/
def pickNewer (a b : Entry) : Entry :=
  if dateLtB a.file_date b.file_date then b else a

/-- Spec-side, claim C1: the entry the claim designates as the final winner
for a label — the first entry, in processing order, that carries the maximum
timestamp among the entries with that label. -/
def winner (L : String) (es : List Entry) : Option Entry :=
  match es.filter (fun e => e.label = L) with
  | [] => none
  | e :: t => some (t.foldl pickNewer e)

/-- Descending run lengths `n, n-1, …, 0`, all with empty captures: the
result list of a greedy `[^}]*` in front of a `}`. -/
def descToZero : Nat → List (Nat × Caps)
  | 0 => [(0, [])]
  | n + 1 => (n + 1, []) :: descToZero n

/-! ## Equations for `run`, one per constructor

(The well-founded definition does not reduce definitionally; these directed
equations drive all later computation.) -/

theorem run_eps (s : List Char) : run .eps s = [(0, [])] := by rw [run]

theorem run_lit_nil (c : Char) : run (.lit c) [] = [] := by rw [run]

theorem run_lit_cons (c a : Char) (t : List Char) :
    run (.lit c) (a :: t) = if a = c then [(1, [])] else [] := by rw [run]

theorem run_cls_nil (neg : Bool) (cs : List Char) : run (.cls neg cs) [] = [] := by
  rw [run]

theorem run_cls_cons (neg : Bool) (cs : List Char) (a : Char) (t : List Char) :
    run (.cls neg cs) (a :: t) = if cs.contains a = !neg then [(1, [])] else [] := by
  rw [run]

theorem run_seq (a b : RE) (s : List Char) :
    run (.seq a b) s =
      (run a s).flatMap fun p =>
        (run b (s.drop p.1)).map fun q => (p.1 + q.1, p.2 ++ q.2) := by rw [run]

theorem run_alt (a b : RE) (s : List Char) :
    run (.alt a b) s = run a s ++ run b s := by rw [run]

theorem run_starG (a : RE) (s : List Char) :
    run (.starG a) s =
      ((run a s).flatMap fun p =>
        if 0 < p.1 ∧ p.1 ≤ s.length then
          (run (.starG a) (s.drop p.1)).map fun q => (p.1 + q.1, p.2 ++ q.2)
        else []) ++ [(0, [])] := by
  rw [run]; simp only [dite_eq_ite]

theorem run_starL (a : RE) (s : List Char) :
    run (.starL a) s =
      (0, []) :: (run a s).flatMap fun p =>
        if 0 < p.1 ∧ p.1 ≤ s.length then
          (run (.starL a) (s.drop p.1)).map fun q => (p.1 + q.1, p.2 ++ q.2)
        else [] := by
  rw [run]; simp only [dite_eq_ite]

theorem run_group (i : Nat) (a : RE) (s : List Char) :
    run (.group i a) s =
      (run a s).map fun p => (p.1, (i, String.mk (s.take p.1)) :: p.2) := by
  rw [run]

/-! ## Chain lemmas for the shapes occurring in the three patterns -/

theorem run_seq_lit_cons (c : Char) (r : RE) (a : Char) (t : List Char) :
    run (.seq (.lit c) r) (a :: t) =
      if a = c then (run r t).map (fun q => (1 + q.1, q.2)) else [] := by
  rw [run_seq, run_lit_cons]
  by_cases h : a = c <;> simp [h]

theorem run_seq_lit_nil (c : Char) (r : RE) : run (.seq (.lit c) r) [] = [] := by
  rw [run_seq, run_lit_nil]; rfl

theorem run_lits_cons_ne (c : Char) (cs : List Char) (k : RE) (a : Char)
    (t : List Char) (h : a ≠ c) : run (lits (c :: cs) k) (a :: t) = [] := by
  simp only [lits]
  rw [run_seq_lit_cons, if_neg h]

theorem run_lits_nil (c : Char) (cs : List Char) (k : RE) :
    run (lits (c :: cs) k) [] = [] := by
  simp only [lits]
  exact run_seq_lit_nil c _

theorem run_wsStar_skip (r : RE) (a : Char) (t : List Char)
    (h : wsChars.contains a = false) :
    run (.seq wsStar r) (a :: t) = run r (a :: t) := by
  rw [run_seq, wsStar, run_starG, run_cls_cons, h]
  simp

theorem run_opt_skip (r : RE) (a : Char) (t : List Char) (h : a ≠ '[') :
    run (.seq optBracket r) (a :: t) = run r (a :: t) := by
  rw [run_seq, optBracket, run_alt, run_seq_lit_cons, if_neg h, run_eps]
  simp

theorem run_nb_nil : run nb [] = [] := by rw [nb, run_cls_nil]

theorem run_nb_cons (a : Char) (t : List Char) :
    run nb (a :: t) = if a = '}' then [] else [(1, [])] := by
  rw [nb, run_cls_cons]
  by_cases h : a = '}' <;> simp [h]

theorem descToZero_map_succ (n : Nat) :
    (descToZero n).map (fun q => (1 + q.1, q.2)) ++ [((0 : Nat), ([] : Caps))] =
      descToZero (n + 1) := by
  induction n with
  | zero => rfl
  | succ n ih =>
    simp only [descToZero, List.map_cons, List.cons_append] at ih ⊢
    rw [ih]
    norm_num [Nat.add_comm]

/-- The greedy `[^}]*` in front of the first `}`: every way to stop, longest
first. -/
theorem run_nbStar (b rest : List Char) (hb : '}' ∉ b) :
    run (.starG nb) (b ++ '}' :: rest) = descToZero b.length := by
  induction b with
  | nil =>
    rw [List.nil_append, run_starG, run_nb_cons, if_pos rfl]
    simp [descToZero]
  | cons c b' ih =>
    have hc : ¬ c = '}' := fun h => hb (by simp [h])
    have hb' : '}' ∉ b' := fun h => hb (List.mem_cons_of_mem _ h)
    rw [List.cons_append, run_starG, run_nb_cons, if_neg hc, List.flatMap_cons]
    simp only [List.flatMap_nil, List.append_nil]
    rw [if_pos (by simp)]
    simp only [List.drop_succ_cons, List.drop_zero]
    rw [ih hb']
    simp only [List.nil_append, List.length_cons]
    exact descToZero_map_succ b'.length

theorem flatMap_descToZero_nil (F : Nat × Caps → List (Nat × Caps)) (n : Nat)
    (h : ∀ k, k ≤ n → F (k, []) = []) :
    (descToZero n).flatMap F = [] := by
  induction n with
  | zero => simp [descToZero, h 0 (le_refl 0)]
  | succ n ih =>
    rw [descToZero, List.flatMap_cons, h (n + 1) (le_refl _),
      ih (fun k hk => h k (le_trans hk (Nat.le_succ n)))]
    rfl

theorem flatMap_descToZero_top (F : Nat × Caps → List (Nat × Caps)) (n : Nat)
    (h : ∀ k, k < n → F (k, []) = []) :
    (descToZero n).flatMap F = F (n, []) := by
  cases n with
  | zero => simp [descToZero]
  | succ n =>
    rw [descToZero, List.flatMap_cons,
      flatMap_descToZero_nil F n (fun k hk => h k (Nat.lt_succ_of_le hk)),
      List.append_nil]

theorem flatMap_descToZero_id (F : Nat × Caps → List (Nat × Caps)) (n : Nat)
    (h : ∀ k, k ≤ n → F (k, []) = [(k, [])]) :
    (descToZero n).flatMap F = descToZero n := by
  induction n with
  | zero => simp [descToZero, h 0 (le_refl 0)]
  | succ n ih =>
    rw [descToZero, List.flatMap_cons, h (n + 1) (le_refl _),
      ih (fun k hk => h k (le_trans hk (Nat.le_succ n)))]
    rfl

theorem drop_append_head (b : List Char) (x : Char) (rest : List Char) (k : Nat)
    (hk : k < b.length) :
    (b ++ x :: rest).drop k = b[k] :: (b.drop (k + 1) ++ x :: rest) := by
  rw [List.drop_append_of_le_length (le_of_lt hk),
    List.drop_eq_getElem_cons hk, List.cons_append]

/-- `[^}][^}]*` on a nonempty `}`-free block before a `}`: consume 1 to all
of it, longest first. -/
theorem run_nbPlusInner (c : Char) (b' rest : List Char) (hc : ¬ c = '}')
    (hb' : '}' ∉ b') :
    run (.seq nb (.starG nb)) (c :: (b' ++ '}' :: rest))
      = (descToZero b'.length).map fun q => (1 + q.1, q.2) := by
  rw [run_seq, run_nb_cons, if_neg hc, List.flatMap_cons]
  simp only [List.flatMap_nil, List.append_nil, List.drop_succ_cons,
    List.drop_zero]
  rw [run_nbStar b' rest hb']
  simp

/-- The argument shape `([^}]+)\}` followed by `r`: group `i` captures the
`}`-free block, the closing brace is consumed, and matching continues with
`r`. -/
theorem run_nbArg (i : Nat) (r : RE) (b rest : List Char) (hb : '}' ∉ b)
    (hne : b ≠ []) :
    run (.seq (nbPlus i) (.seq (.lit '}') r)) (b ++ '}' :: rest)
      = (run r rest).map fun q =>
          (b.length + 1 + q.1, (i, String.mk b) :: q.2) := by
  obtain ⟨c, b', rfl⟩ := List.exists_cons_of_ne_nil hne
  have hc : ¬ c = '}' := fun h => hb (by simp [h])
  have hb' : '}' ∉ b' := fun h => hb (List.mem_cons_of_mem _ h)
  rw [nbPlus, run_seq, run_group, List.flatMap_map, List.cons_append,
    run_nbPlusInner c b' rest hc hb', List.flatMap_map,
    flatMap_descToZero_top]
  · show (run (.seq (.lit '}') r)
        ((c :: (b' ++ '}' :: rest)).drop (1 + b'.length))).map _ = _
    rw [Nat.add_comm 1 b'.length, List.drop_succ_cons, List.drop_left,
      run_seq_lit_cons, if_pos rfl, List.map_map]
    refine List.map_congr_left fun q _ => ?_
    simp [List.take_succ_cons, List.take_left, Prod.ext_iff]
    omega
  · intro k hk
    show (run (.seq (.lit '}') r) ((c :: (b' ++ '}' :: rest)).drop (1 + k))).map _ = _
    rw [Nat.add_comm 1 k, List.drop_succ_cons, drop_append_head b' '}' rest k hk,
      run_seq_lit_cons,
      if_neg (by intro h; exact hb' (h ▸ List.getElem_mem hk))]
    rfl

/-- `(?:\{[^}]*\}[^}]*)*` matches nothing when the input does not start with
`{`. -/
theorem run_grpStar_head (inp : List Char) (h : inp.head? ≠ some '{') :
    run grpStar inp = [(0, [])] := by
  cases inp with
  | nil =>
    rw [grpStar, run_starG, grpIter, run_seq_lit_nil]
    rfl
  | cons d t =>
    have hd : ¬ d = '{' := fun hh => h (by simp [hh])
    rw [grpStar, run_starG, grpIter, run_seq_lit_cons, if_neg hd]
    rfl

/-- `[^}]*(?:\{[^}]*\}[^}]*)*` on a brace-free block before a `}`: the group
iterator never fires, so the result is that of the plain `[^}]*`. -/
theorem run_bodyInner (b rest : List Char) (hb : '}' ∉ b) (hbo : '{' ∉ b) :
    run (.seq (.starG nb) grpStar) (b ++ '}' :: rest) = descToZero b.length := by
  rw [run_seq, run_nbStar b rest hb]
  apply flatMap_descToZero_id
  intro k hk
  rcases Nat.lt_or_ge k b.length with hlt | hge
  · rw [drop_append_head b '}' rest k hlt,
      run_grpStar_head _ (by
        intro hcon
        simp only [List.head?_cons, Option.some.injEq] at hcon
        exact hbo (hcon ▸ List.getElem_mem hlt))]
    rfl
  · have hkb : k = b.length := le_antisymm hk hge
    subst hkb
    rw [List.drop_left, run_grpStar_head _ (by simp)]
    rfl

/-- `([^}]*(?:\{[^}]*\}[^}]*)*)\}` on a brace-free body: the match ends at
the first `}`, capturing the body. -/
theorem run_bodyArg (i : Nat) (b rest : List Char) (hb : '}' ∉ b)
    (hbo : '{' ∉ b) :
    run (.seq (bodyGroup i) (.lit '}')) (b ++ '}' :: rest)
      = [(b.length + 1, [(i, String.mk b)])] := by
  rw [bodyGroup, run_seq, run_group, List.flatMap_map,
    run_bodyInner b rest hb hbo, flatMap_descToZero_top]
  · show (run (.lit '}') ((b ++ '}' :: rest).drop b.length)).map _ = _
    rw [List.drop_left, run_lit_cons, if_pos rfl]
    simp [List.take_left]
  · intro k hk
    show (run (.lit '}') ((b ++ '}' :: rest).drop k)).map _ = _
    rw [drop_append_head b '}' rest k hk, run_lit_cons,
      if_neg (by intro h; exact hb (h ▸ List.getElem_mem hk))]
    rfl

theorem descToZero_cons (n : Nat) :
    ∃ dt, descToZero n = (n, ([] : Caps)) :: dt := by
  cases n <;> exact ⟨_, rfl⟩

/-- `[^}]*(?:\{[^}]*\}[^}]*)*` on a `}`-free block (which may contain `{`):
the first, greedy-maximal alternative consumes the whole block — the group
iterator never fires on that path because `[^}]*` has already eaten every
`{`. -/
theorem run_bodyInner_cons (b rest : List Char) (hb : '}' ∉ b) :
    ∃ tail, run (.seq (.starG nb) grpStar) (b ++ '}' :: rest)
      = (b.length, ([] : Caps)) :: tail := by
  rw [run_seq, run_nbStar b rest hb]
  obtain ⟨dt, hdt⟩ := descToZero_cons b.length
  rw [hdt, List.flatMap_cons, List.drop_left, run_grpStar_head _ (by simp)]
  simp only [List.map_cons, List.map_nil, Nat.add_zero, List.append_nil,
    List.nil_append, List.singleton_append]
  exact ⟨_, rfl⟩

/-- `([^}]*(?:\{[^}]*\}[^}]*)*)\}` on a body of shape `b1{b2` before the
first `}`: the reported (priority-first) match still ends at that first `}`,
capturing `b1{b2` — the nested-group iterator contributes nothing to the
reported match. -/
theorem run_bodyArgNested (i : Nat) (b1 b2 rest : List Char)
    (h1 : '}' ∉ b1) (h2 : '}' ∉ b2) :
    ∃ tail, run (.seq (bodyGroup i) (.lit '}')) (b1 ++ '{' :: (b2 ++ '}' :: rest))
      = ((b1 ++ '{' :: b2).length + 1,
          [(i, String.mk (b1 ++ '{' :: b2))]) :: tail := by
  have hb : '}' ∉ (b1 ++ '{' :: b2) := by
    intro hmem
    rcases List.mem_append.mp hmem with hmem | hmem
    · exact h1 hmem
    · rcases List.mem_cons.mp hmem with hmem | hmem
      · exact absurd hmem.symm (by decide)
      · exact h2 hmem
  have hshape : b1 ++ '{' :: (b2 ++ '}' :: rest) = (b1 ++ '{' :: b2) ++ '}' :: rest := by
    simp
  rw [hshape, bodyGroup, run_seq, run_group, List.flatMap_map]
  obtain ⟨tail0, h0⟩ := run_bodyInner_cons (b1 ++ '{' :: b2) rest hb
  rw [h0, List.flatMap_cons, List.drop_left, run_lit_cons, if_pos rfl]
  simp only [List.map_cons, List.map_nil, Nat.add_zero, List.append_nil,
    List.nil_append, List.singleton_append, List.take_left]
  exact ⟨_, rfl⟩

/-! ## Driving `scan` -/

theorem scan_nil_of_fail (re : RE) (h : run re [] = []) : scan re [] = [] := by
  rw [scan, h]; rfl

theorem scan_cons_of_fail (re : RE) (c : Char) (t : List Char)
    (h : run re (c :: t) = []) : scan re (c :: t) = scan re t := by
  rw [scan, h]; rfl

theorem scan_cons_of_head (re : RE) (c : Char) (t : List Char) (n : Nat)
    (g : Caps) (l : List (Nat × Caps)) (h : run re (c :: t) = (n, g) :: l) :
    scan re (c :: t)
      = (String.mk ((c :: t).take n), g) :: scan re ((c :: t).drop (max n 1)) := by
  rw [scan, h]; rfl

theorem scan_cons_of_head_opt (re : RE) (c : Char) (t : List Char) (n : Nat)
    (g : Caps) (h : (run re (c :: t)).head? = some (n, g)) :
    scan re (c :: t)
      = (String.mk ((c :: t).take n), g) :: scan re ((c :: t).drop (max n 1)) := by
  rw [scan, h]

theorem scan_no_bs (re : RE)
    (hfail : ∀ a t, a ≠ '\\' → run re (a :: t) = [])
    (hnil : run re [] = [])
    (s : List Char) (hs : '\\' ∉ s) : scan re s = [] := by
  induction s with
  | nil => exact scan_nil_of_fail re hnil
  | cons c t ih =>
    have hc : c ≠ '\\' := fun h => hs (by simp [h])
    rw [scan_cons_of_fail re c t (hfail c t hc)]
    exact ih (fun h => hs (List.mem_cons_of_mem _ h))

theorem scan_append_no_bs (re : RE)
    (hfail : ∀ a t, a ≠ '\\' → run re (a :: t) = [])
    (pre rest : List Char) (hpre : '\\' ∉ pre) :
    scan re (pre ++ rest) = scan re rest := by
  induction pre with
  | nil => rw [List.nil_append]
  | cons c t ih =>
    have hc : c ≠ '\\' := fun h => hpre (by simp [h])
    rw [List.cons_append, scan_cons_of_fail re c _ (hfail c _ hc)]
    exact ih (fun h => hpre (List.mem_cons_of_mem _ h))

/-! ## The three patterns match only at a backslash -/

theorem run_acrodef_head_ne (a : Char) (t : List Char) (h : a ≠ '\\') :
    run acrodef_pattern (a :: t) = [] := by
  rw [acrodef_pattern, show "\\acrodef".data = '\\' :: "acrodef".data from rfl]
  exact run_lits_cons_ne '\\' _ _ a t h

theorem run_acrodef_nil : run acrodef_pattern [] = [] := by
  rw [acrodef_pattern, show "\\acrodef".data = '\\' :: "acrodef".data from rfl]
  exact run_lits_nil '\\' _ _

theorem run_newacronym_head_ne (a : Char) (t : List Char) (h : a ≠ '\\') :
    run newacronym_pattern (a :: t) = [] := by
  rw [newacronym_pattern,
    show "\\newacronym".data = '\\' :: "newacronym".data from rfl]
  exact run_lits_cons_ne '\\' _ _ a t h

theorem run_newacronym_nil : run newacronym_pattern [] = [] := by
  rw [newacronym_pattern,
    show "\\newacronym".data = '\\' :: "newacronym".data from rfl]
  exact run_lits_nil '\\' _ _

theorem run_newcommand_head_ne (a : Char) (t : List Char) (h : a ≠ '\\') :
    run newcommand_pattern (a :: t) = [] := by
  rw [newcommand_pattern,
    show "\\newcommand".data = '\\' :: "newcommand".data from rfl]
  exact run_lits_cons_ne '\\' _ _ a t h

theorem run_newcommand_nil : run newcommand_pattern [] = [] := by
  rw [newcommand_pattern,
    show "\\newcommand".data = '\\' :: "newcommand".data from rfl]
  exact run_lits_nil '\\' _ _

/-- A pattern that opens with a literal chain only matches where that chain
is a prefix. -/
theorem run_lits_ne_nil_imp (w : List Char) (K : RE) :
    ∀ t, run (lits w K) t ≠ [] → w <+: t := by
  induction w with
  | nil => exact fun t _ => List.nil_prefix
  | cons c w' ih =>
    intro t hne
    cases t with
    | nil => exact absurd (run_lits_nil c w' K) hne
    | cons a t' =>
      by_cases hac : a = c
      · subst hac
        simp only [lits] at hne
        rw [run_seq_lit_cons, if_pos rfl] at hne
        have hne' : run (lits w' K) t' ≠ [] := fun h => hne (by rw [h, List.map_nil])
        exact List.cons_prefix_cons.mpr ⟨rfl, ih t' hne'⟩
      · exact absurd (run_lits_cons_ne c w' K a t' hac) hne

/-- `finditer` finds nothing in text that nowhere contains the pattern's
opening literal chain. -/
theorem scan_eq_nil_of_no_infix (re : RE) (w : List Char) (hw : w ≠ [])
    (hpre : ∀ t, ¬ w <+: t → run re t = [])
    (s : List Char) (hs : ¬ w <:+: s) : scan re s = [] := by
  induction s with
  | nil =>
    refine scan_nil_of_fail re (hpre [] fun hcon => ?_)
    exact hw (List.prefix_nil.mp hcon)
  | cons c t ih =>
    have h1 : ¬ w <+: (c :: t) := fun h => hs h.isInfix
    rw [scan_cons_of_fail re c t (hpre _ h1)]
    exact ih (fun h => hs (List.infix_cons h))

theorem acrodef_hpre (t : List Char) (h : ¬ ("\\acrodef".data <+: t)) :
    run acrodef_pattern t = [] := by
  by_contra hne
  rw [acrodef_pattern] at hne
  exact h (run_lits_ne_nil_imp _ _ t hne)

theorem newacronym_hpre (t : List Char) (h : ¬ ("\\newacronym".data <+: t)) :
    run newacronym_pattern t = [] := by
  by_contra hne
  rw [newacronym_pattern] at hne
  exact h (run_lits_ne_nil_imp _ _ t hne)

theorem newcommand_hpre (t : List Char) (h : ¬ ("\\newcommand".data <+: t)) :
    run newcommand_pattern t = [] := by
  by_contra hne
  rw [newcommand_pattern] at hne
  exact h (run_lits_ne_nil_imp _ _ t hne)

theorem scan_acrodef_nil (s : List Char) (hs : ¬ ("\\acrodef".data <:+: s)) :
    scan acrodef_pattern s = [] :=
  scan_eq_nil_of_no_infix _ _ (by decide) acrodef_hpre s hs

theorem scan_newacronym_nil (s : List Char) (hs : ¬ ("\\newacronym".data <:+: s)) :
    scan newacronym_pattern s = [] :=
  scan_eq_nil_of_no_infix _ _ (by decide) newacronym_hpre s hs

theorem scan_newcommand_nil (s : List Char) (hs : ¬ ("\\newcommand".data <:+: s)) :
    scan newcommand_pattern s = [] :=
  scan_eq_nil_of_no_infix _ _ (by decide) newcommand_hpre s hs

/-- The final argument shape `([^}]+)\}` at the end of a pattern. -/
theorem run_nbArg_end (i : Nat) (b rest : List Char) (hb : '}' ∉ b)
    (hne : b ≠ []) :
    run (.seq (nbPlus i) (.lit '}')) (b ++ '}' :: rest)
      = [(b.length + 1, [(i, String.mk b)])] := by
  obtain ⟨c, b', rfl⟩ := List.exists_cons_of_ne_nil hne
  have hc : ¬ c = '}' := fun h => hb (by simp [h])
  have hb' : '}' ∉ b' := fun h => hb (List.mem_cons_of_mem _ h)
  rw [nbPlus, run_seq, run_group, List.flatMap_map, List.cons_append,
    run_nbPlusInner c b' rest hc hb', List.flatMap_map,
    flatMap_descToZero_top]
  · show (run (.lit '}')
        ((c :: (b' ++ '}' :: rest)).drop (1 + b'.length))).map _ = _
    rw [Nat.add_comm 1 b'.length, List.drop_succ_cons, List.drop_left,
      run_lit_cons, if_pos rfl]
    simp [List.take_succ_cons, List.take_left, Prod.ext_iff]
  · intro k hk
    show (run (.lit '}') ((c :: (b' ++ '}' :: rest)).drop (1 + k))).map _ = _
    rw [Nat.add_comm 1 k, List.drop_succ_cons, drop_append_head b' '}' rest k hk,
      run_lit_cons, if_neg (by intro h; exact hb' (h ▸ List.getElem_mem hk))]
    rfl

/-- When a prefix (c₂ onward) of the opening literal chain mismatches, there
is no prefix relation. -/
theorem not_prefix_of_second (c2 : Char) (w : List Char) (a : Char)
    (t : List Char) (h : a ≠ c2) : ¬ (('\\' :: c2 :: w) <+: ('\\' :: a :: t)) := by
  intro hp
  rcases List.cons_prefix_cons.mp hp with ⟨-, hp2⟩
  rcases List.cons_prefix_cons.mp hp2 with ⟨hac, -⟩
  exact h hac.symm

/-- Unfolding `read_acrodefs` at a successfully read file. -/
theorem read_acrodefs_some (s : String) (d : PyDateTime) (p : String) :
    read_acrodefs (some s) d p
      = ((scan acrodef_pattern s.data).map fun m =>
          ⟨pyStrip (capture1 m.2), m.1, "acrodef", d, p⟩) ++
        ((scan newacronym_pattern s.data).map fun m =>
          ⟨pyStrip (capture1 m.2), m.1, "newacronym", d, p⟩) ++
        ((scan newcommand_pattern s.data).map fun m =>
          ⟨pyStrip (capture1 m.2), m.1, "newcommand", d, p⟩) := rfl

/-! ## Evaluating the `\acrodef{FOO}{Full Form}` round trip -/

/-- The pattern matches the clean directive exactly, whatever follows it. -/
theorem run_acrodef_directive (post : List Char) :
    run acrodef_pattern ("\\acrodef\x7bFOO\x7d\x7bFull Form\x7d".data ++ post)
      = [(24, [(1, "FOO"), (2, "Full Form")])] := by
  rw [show "\\acrodef\x7bFOO\x7d\x7bFull Form\x7d".data ++ post
      = '\\' :: 'a' :: 'c' :: 'r' :: 'o' :: 'd' :: 'e' :: 'f' :: '{' ::
        ("FOO".data ++ '}' :: '{' :: ("Full Form".data ++ '}' :: post)) from rfl]
  rw [acrodef_pattern,
    show "\\acrodef".data = ['\\', 'a', 'c', 'r', 'o', 'd', 'e', 'f'] from rfl]
  simp only [lits]
  rw [run_seq_lit_cons, if_pos rfl]
  rw [run_seq_lit_cons, if_pos rfl]
  rw [run_seq_lit_cons, if_pos rfl]
  rw [run_seq_lit_cons, if_pos rfl]
  rw [run_seq_lit_cons, if_pos rfl]
  rw [run_seq_lit_cons, if_pos rfl]
  rw [run_seq_lit_cons, if_pos rfl]
  rw [run_seq_lit_cons, if_pos rfl]
  rw [run_wsStar_skip _ _ _ (by decide)]
  rw [run_seq_lit_cons, if_pos rfl]
  rw [run_nbArg 1 _ "FOO".data _ (by decide) (by decide)]
  rw [run_wsStar_skip _ _ _ (by decide)]
  rw [run_seq_lit_cons, if_pos rfl]
  rw [run_bodyArg 2 "Full Form".data post (by decide) (by decide)]
  decide

theorem scan_acrodef_directive (post : List Char) (hpost : '\\' ∉ post) :
    scan acrodef_pattern ("\\acrodef\x7bFOO\x7d\x7bFull Form\x7d".data ++ post)
      = [("\\acrodef\x7bFOO\x7d\x7bFull Form\x7d", [(1, "FOO"), (2, "Full Form")])] := by
  rw [show "\\acrodef\x7bFOO\x7d\x7bFull Form\x7d".data ++ post
      = '\\' :: ("acrodef\x7bFOO\x7d\x7bFull Form\x7d".data ++ post) from rfl]
  rw [scan_cons_of_head _ _ _ 24 [(1, "FOO"), (2, "Full Form")] []
    (by
      rw [show '\\' :: ("acrodef\x7bFOO\x7d\x7bFull Form\x7d".data ++ post)
        = "\\acrodef\x7bFOO\x7d\x7bFull Form\x7d".data ++ post from rfl]
      exact run_acrodef_directive post)]
  rw [show ('\\' :: ("acrodef\x7bFOO\x7d\x7bFull Form\x7d".data ++ post)).drop (max 24 1)
      = post from by
        rw [show '\\' :: ("acrodef\x7bFOO\x7d\x7bFull Form\x7d".data ++ post)
          = "\\acrodef\x7bFOO\x7d\x7bFull Form\x7d".data ++ post from rfl]
        exact List.drop_left' (by decide)]
  rw [scan_no_bs _ run_acrodef_head_ne run_acrodef_nil post hpost]
  rw [show ('\\' :: ("acrodef\x7bFOO\x7d\x7bFull Form\x7d".data ++ post)).take 24
      = "\\acrodef\x7bFOO\x7d\x7bFull Form\x7d".data from by
        rw [show '\\' :: ("acrodef\x7bFOO\x7d\x7bFull Form\x7d".data ++ post)
          = "\\acrodef\x7bFOO\x7d\x7bFull Form\x7d".data ++ post from rfl]
        exact List.take_left' (by decide)]

/-- Prefix discrimination after a shared block. -/
theorem not_prefix_of_diff (u : List Char) (c d : Char) (w t : List Char)
    (h : c ≠ d) : ¬ ((u ++ c :: w) <+: (u ++ d :: t)) := by
  induction u with
  | nil =>
    intro hp
    exact h (List.cons_prefix_cons.mp hp).1
  | cons x u ih =>
    intro hp
    exact ih (List.cons_prefix_cons.mp hp).2

theorem scan_newacronym_step_a (seg rest : List Char) (hseg : '\\' ∉ seg) :
    scan newacronym_pattern (('\\' :: 'a' :: seg) ++ rest)
      = scan newacronym_pattern rest := by
  rw [List.cons_append, List.cons_append,
    scan_cons_of_fail _ _ _ (newacronym_hpre _ (by
      rw [show "\\newacronym".data = '\\' :: 'n' :: "ewacronym".data from rfl]
      exact not_prefix_of_second 'n' _ 'a' _ (by decide)))]
  rw [scan_cons_of_fail _ _ _ (run_newacronym_head_ne 'a' _ (by decide))]
  exact scan_append_no_bs _ run_newacronym_head_ne seg rest hseg

theorem scan_newcommand_step_a (seg rest : List Char) (hseg : '\\' ∉ seg) :
    scan newcommand_pattern (('\\' :: 'a' :: seg) ++ rest)
      = scan newcommand_pattern rest := by
  rw [List.cons_append, List.cons_append,
    scan_cons_of_fail _ _ _ (newcommand_hpre _ (by
      rw [show "\\newcommand".data = '\\' :: 'n' :: "ewcommand".data from rfl]
      exact not_prefix_of_second 'n' _ 'a' _ (by decide)))]
  rw [scan_cons_of_fail _ _ _ (run_newcommand_head_ne 'a' _ (by decide))]
  exact scan_append_no_bs _ run_newcommand_head_ne seg rest hseg

theorem scan_acrodef_step_n (seg rest : List Char) (hseg : '\\' ∉ seg) :
    scan acrodef_pattern (('\\' :: 'n' :: seg) ++ rest)
      = scan acrodef_pattern rest := by
  rw [List.cons_append, List.cons_append,
    scan_cons_of_fail _ _ _ (acrodef_hpre _ (by
      rw [show "\\acrodef".data = '\\' :: 'a' :: "crodef".data from rfl]
      exact not_prefix_of_second 'a' _ 'n' _ (by decide)))]
  rw [scan_cons_of_fail _ _ _ (run_acrodef_head_ne 'n' _ (by decide))]
  exact scan_append_no_bs _ run_acrodef_head_ne seg rest hseg

theorem scan_acrodef_step_c (seg rest : List Char) (hseg : '\\' ∉ seg) :
    scan acrodef_pattern (('\\' :: 'c' :: seg) ++ rest)
      = scan acrodef_pattern rest := by
  rw [List.cons_append, List.cons_append,
    scan_cons_of_fail _ _ _ (acrodef_hpre _ (by
      rw [show "\\acrodef".data = '\\' :: 'a' :: "crodef".data from rfl]
      exact not_prefix_of_second 'a' _ 'c' _ (by decide)))]
  rw [scan_cons_of_fail _ _ _ (run_acrodef_head_ne 'c' _ (by decide))]
  exact scan_append_no_bs _ run_acrodef_head_ne seg rest hseg

theorem scan_newacronym_step_c (seg rest : List Char) (hseg : '\\' ∉ seg) :
    scan newacronym_pattern (('\\' :: 'c' :: seg) ++ rest)
      = scan newacronym_pattern rest := by
  rw [List.cons_append, List.cons_append,
    scan_cons_of_fail _ _ _ (newacronym_hpre _ (by
      rw [show "\\newacronym".data = '\\' :: 'n' :: "ewacronym".data from rfl]
      exact not_prefix_of_second 'n' _ 'c' _ (by decide)))]
  rw [scan_cons_of_fail _ _ _ (run_newacronym_head_ne 'c' _ (by decide))]
  exact scan_append_no_bs _ run_newacronym_head_ne seg rest hseg

theorem scan_newcommand_step_c (seg rest : List Char) (hseg : '\\' ∉ seg) :
    scan newcommand_pattern (('\\' :: 'c' :: seg) ++ rest)
      = scan newcommand_pattern rest := by
  rw [List.cons_append, List.cons_append,
    scan_cons_of_fail _ _ _ (newcommand_hpre _ (by
      rw [show "\\newcommand".data = '\\' :: 'n' :: "ewcommand".data from rfl]
      exact not_prefix_of_second 'n' _ 'c' _ (by decide)))]
  rw [scan_cons_of_fail _ _ _ (run_newcommand_head_ne 'c' _ (by decide))]
  exact scan_append_no_bs _ run_newcommand_head_ne seg rest hseg

/-- `newacronym` never matches at a `\newcommand` head (differs at the fifth
character). -/
theorem scan_newacronym_step_newc (seg rest : List Char) (hseg : '\\' ∉ seg) :
    scan newacronym_pattern (('\\' :: 'n' :: 'e' :: 'w' :: 'c' :: seg) ++ rest)
      = scan newacronym_pattern rest := by
  rw [List.cons_append, List.cons_append, List.cons_append, List.cons_append,
    List.cons_append,
    scan_cons_of_fail _ _ _ (newacronym_hpre _ (by
      rw [show "\\newacronym".data
        = ['\\', 'n', 'e', 'w'] ++ 'a' :: "cronym".data from rfl,
        show '\\' :: 'n' :: 'e' :: 'w' :: 'c' :: (seg ++ rest)
        = ['\\', 'n', 'e', 'w'] ++ 'c' :: (seg ++ rest) from rfl]
      exact not_prefix_of_diff _ 'a' 'c' _ _ (by decide)))]
  rw [scan_cons_of_fail _ _ _ (run_newacronym_head_ne 'n' _ (by decide))]
  rw [scan_cons_of_fail _ _ _ (run_newacronym_head_ne 'e' _ (by decide))]
  rw [scan_cons_of_fail _ _ _ (run_newacronym_head_ne 'w' _ (by decide))]
  rw [scan_cons_of_fail _ _ _ (run_newacronym_head_ne 'c' _ (by decide))]
  exact scan_append_no_bs _ run_newacronym_head_ne seg rest hseg

/-- `newcommand` never matches at a `\newacronym` head. -/
theorem scan_newcommand_step_newa (seg rest : List Char) (hseg : '\\' ∉ seg) :
    scan newcommand_pattern (('\\' :: 'n' :: 'e' :: 'w' :: 'a' :: seg) ++ rest)
      = scan newcommand_pattern rest := by
  rw [List.cons_append, List.cons_append, List.cons_append, List.cons_append,
    List.cons_append,
    scan_cons_of_fail _ _ _ (newcommand_hpre _ (by
      rw [show "\\newcommand".data
        = ['\\', 'n', 'e', 'w'] ++ 'c' :: "ommand".data from rfl,
        show '\\' :: 'n' :: 'e' :: 'w' :: 'a' :: (seg ++ rest)
        = ['\\', 'n', 'e', 'w'] ++ 'a' :: (seg ++ rest) from rfl]
      exact not_prefix_of_diff _ 'c' 'a' _ _ (by decide)))]
  rw [scan_cons_of_fail _ _ _ (run_newcommand_head_ne 'n' _ (by decide))]
  rw [scan_cons_of_fail _ _ _ (run_newcommand_head_ne 'e' _ (by decide))]
  rw [scan_cons_of_fail _ _ _ (run_newcommand_head_ne 'w' _ (by decide))]
  rw [scan_cons_of_fail _ _ _ (run_newcommand_head_ne 'a' _ (by decide))]
  exact scan_append_no_bs _ run_newcommand_head_ne seg rest hseg

/-- Extraction from a clean directive in a backslash-free context. -/
theorem read_acrodefs_directive (pre post : List Char)
    (hpre : '\\' ∉ pre) (hpost : '\\' ∉ post) (d : PyDateTime) (p : String) :
    read_acrodefs (some ⟨pre ++ ("\\acrodef\x7bFOO\x7d\x7bFull Form\x7d".data ++ post)⟩) d p
      = [⟨"FOO", "\\acrodef\x7bFOO\x7d\x7bFull Form\x7d", "acrodef", d, p⟩] := by
  rw [read_acrodefs_some]
  rw [show (⟨pre ++ ("\\acrodef\x7bFOO\x7d\x7bFull Form\x7d".data ++ post)⟩ : String).data
      = pre ++ ("\\acrodef\x7bFOO\x7d\x7bFull Form\x7d".data ++ post) from rfl]
  rw [scan_append_no_bs _ run_acrodef_head_ne pre _ hpre,
    scan_acrodef_directive post hpost]
  rw [scan_append_no_bs _ run_newacronym_head_ne pre _ hpre]
  rw [scan_append_no_bs _ run_newcommand_head_ne pre _ hpre]
  rw [show "\\acrodef\x7bFOO\x7d\x7bFull Form\x7d".data ++ post
      = ('\\' :: 'a' :: "crodef\x7bFOO\x7d\x7bFull Form\x7d".data) ++ post from rfl]
  rw [scan_newacronym_step_a _ post (by decide),
    scan_no_bs _ run_newacronym_head_ne run_newacronym_nil post hpost]
  rw [scan_newcommand_step_a _ post (by decide),
    scan_no_bs _ run_newcommand_head_ne run_newcommand_nil post hpost]
  rfl

/-! ## Evaluating the adversarial document
`\acrodef{A}{x\acrodef{FOO}{Full Form}` — the enclosing directive's body
pattern eats the inner `\acrodef{FOO}`, so the embedded clean directive is
never reported. -/

theorem run_acrodef_doc0 :
    (run acrodef_pattern "\\acrodef\x7bA\x7d\x7bx\\acrodef\x7bFOO\x7d\x7bFull Form\x7d".data).head?
      = some (26, [(1, "A"), (2, "x\\acrodef\x7bFOO")]) := by
  rw [show "\\acrodef\x7bA\x7d\x7bx\\acrodef\x7bFOO\x7d\x7bFull Form\x7d".data
      = '\\' :: 'a' :: 'c' :: 'r' :: 'o' :: 'd' :: 'e' :: 'f' :: '{' ::
        ("A".data ++ '}' :: '{' ::
          ("x\\acrodef".data ++ '{' ::
            ("FOO".data ++ '}' :: "\x7bFull Form\x7d".data))) from rfl]
  rw [acrodef_pattern,
    show "\\acrodef".data = ['\\', 'a', 'c', 'r', 'o', 'd', 'e', 'f'] from rfl]
  simp only [lits]
  rw [run_seq_lit_cons, if_pos rfl]
  rw [run_seq_lit_cons, if_pos rfl]
  rw [run_seq_lit_cons, if_pos rfl]
  rw [run_seq_lit_cons, if_pos rfl]
  rw [run_seq_lit_cons, if_pos rfl]
  rw [run_seq_lit_cons, if_pos rfl]
  rw [run_seq_lit_cons, if_pos rfl]
  rw [run_seq_lit_cons, if_pos rfl]
  rw [run_wsStar_skip _ _ _ (by decide)]
  rw [run_seq_lit_cons, if_pos rfl]
  rw [run_nbArg 1 _ "A".data _ (by decide) (by decide)]
  rw [run_wsStar_skip _ _ _ (by decide)]
  rw [run_seq_lit_cons, if_pos rfl]
  obtain ⟨tl0, h0⟩ := run_bodyArgNested 2 "x\\acrodef".data "FOO".data
    "\x7bFull Form\x7d".data (by decide) (by decide)
  rw [h0]
  simp only [List.map_cons, List.head?_cons]
  decide

theorem scan_acrodef_doc0 :
    scan acrodef_pattern "\\acrodef\x7bA\x7d\x7bx\\acrodef\x7bFOO\x7d\x7bFull Form\x7d".data
      = [("\\acrodef\x7bA\x7d\x7bx\\acrodef\x7bFOO\x7d", [(1, "A"), (2, "x\\acrodef\x7bFOO")])] := by
  have htl := run_acrodef_doc0
  rw [show "\\acrodef\x7bA\x7d\x7bx\\acrodef\x7bFOO\x7d\x7bFull Form\x7d".data
      = '\\' :: "acrodef\x7bA\x7d\x7bx\\acrodef\x7bFOO\x7d\x7bFull Form\x7d".data from rfl] at htl ⊢
  rw [scan_cons_of_head_opt _ _ _ 26 _ htl]
  rw [show ('\\' :: "acrodef\x7bA\x7d\x7bx\\acrodef\x7bFOO\x7d\x7bFull Form\x7d".data).drop (max 26 1)
      = "\x7bFull Form\x7d".data from rfl]
  rw [scan_no_bs _ run_acrodef_head_ne run_acrodef_nil _ (by decide)]
  rw [show ('\\' :: "acrodef\x7bA\x7d\x7bx\\acrodef\x7bFOO\x7d\x7bFull Form\x7d".data).take 26
      = "\\acrodef\x7bA\x7d\x7bx\\acrodef\x7bFOO\x7d".data from rfl]

theorem read_acrodefs_doc0 (d : PyDateTime) (p : String) :
    read_acrodefs (some "\\acrodef\x7bA\x7d\x7bx\\acrodef\x7bFOO\x7d\x7bFull Form\x7d") d p
      = [⟨"A", "\\acrodef\x7bA\x7d\x7bx\\acrodef\x7bFOO\x7d", "acrodef", d, p⟩] := by
  rw [read_acrodefs_some, scan_acrodef_doc0]
  rw [show "\\acrodef\x7bA\x7d\x7bx\\acrodef\x7bFOO\x7d\x7bFull Form\x7d".data
      = ('\\' :: 'a' :: "crodef\x7bA\x7d\x7bx".data) ++
        (('\\' :: 'a' :: "crodef\x7bFOO\x7d\x7bFull Form\x7d".data) ++ []) from rfl]
  rw [scan_newacronym_step_a _ _ (by decide),
    scan_newacronym_step_a _ _ (by decide),
    scan_nil_of_fail _ run_newacronym_nil]
  rw [scan_newcommand_step_a _ _ (by decide),
    scan_newcommand_step_a _ _ (by decide),
    scan_nil_of_fail _ run_newcommand_nil]
  rfl

/-! ## Evaluating directives whose body holds a nested brace group

All three patterns truncate the reported match at the first `}` of the body:
the nested-group subpattern `(?:\{[^}]*\}[^}]*)*` can never engage, because
the greedy `[^}]*` before it already consumes every `{`, and the overall
match succeeds without backtracking. -/

theorem run_acrodef_nested :
    (run acrodef_pattern "\\acrodef\x7bAB\x7d\x7bFull \x7bnested\x7d Form\x7d".data).head?
      = some (26, [(1, "AB"), (2, "Full \x7bnested")]) := by
  rw [show "\\acrodef\x7bAB\x7d\x7bFull \x7bnested\x7d Form\x7d".data
      = '\\' :: 'a' :: 'c' :: 'r' :: 'o' :: 'd' :: 'e' :: 'f' :: '{' ::
        ("AB".data ++ '}' :: '{' ::
          ("Full ".data ++ '{' ::
            ("nested".data ++ '}' :: " Form\x7d".data))) from rfl]
  rw [acrodef_pattern,
    show "\\acrodef".data = ['\\', 'a', 'c', 'r', 'o', 'd', 'e', 'f'] from rfl]
  simp only [lits]
  rw [run_seq_lit_cons, if_pos rfl]
  rw [run_seq_lit_cons, if_pos rfl]
  rw [run_seq_lit_cons, if_pos rfl]
  rw [run_seq_lit_cons, if_pos rfl]
  rw [run_seq_lit_cons, if_pos rfl]
  rw [run_seq_lit_cons, if_pos rfl]
  rw [run_seq_lit_cons, if_pos rfl]
  rw [run_seq_lit_cons, if_pos rfl]
  rw [run_wsStar_skip _ _ _ (by decide)]
  rw [run_seq_lit_cons, if_pos rfl]
  rw [run_nbArg 1 _ "AB".data _ (by decide) (by decide)]
  rw [run_wsStar_skip _ _ _ (by decide)]
  rw [run_seq_lit_cons, if_pos rfl]
  obtain ⟨tl0, h0⟩ := run_bodyArgNested 2 "Full ".data "nested".data
    " Form\x7d".data (by decide) (by decide)
  rw [h0]
  simp only [List.map_cons, List.head?_cons]
  decide

theorem scan_acrodef_nested :
    scan acrodef_pattern "\\acrodef\x7bAB\x7d\x7bFull \x7bnested\x7d Form\x7d".data
      = [("\\acrodef\x7bAB\x7d\x7bFull \x7bnested\x7d", [(1, "AB"), (2, "Full \x7bnested")])] := by
  have htl := run_acrodef_nested
  rw [show "\\acrodef\x7bAB\x7d\x7bFull \x7bnested\x7d Form\x7d".data
      = '\\' :: "acrodef\x7bAB\x7d\x7bFull \x7bnested\x7d Form\x7d".data from rfl] at htl ⊢
  rw [scan_cons_of_head_opt _ _ _ 26 _ htl]
  rw [show ('\\' :: "acrodef\x7bAB\x7d\x7bFull \x7bnested\x7d Form\x7d".data).drop (max 26 1)
      = " Form\x7d".data from rfl]
  rw [scan_no_bs _ run_acrodef_head_ne run_acrodef_nil _ (by decide)]
  rw [show ('\\' :: "acrodef\x7bAB\x7d\x7bFull \x7bnested\x7d Form\x7d".data).take 26
      = "\\acrodef\x7bAB\x7d\x7bFull \x7bnested\x7d".data from rfl]

theorem read_acrodefs_nested_acrodef (d : PyDateTime) (p : String) :
    read_acrodefs (some "\\acrodef\x7bAB\x7d\x7bFull \x7bnested\x7d Form\x7d") d p
      = [⟨"AB", "\\acrodef\x7bAB\x7d\x7bFull \x7bnested\x7d", "acrodef", d, p⟩] := by
  rw [read_acrodefs_some, scan_acrodef_nested]
  rw [show "\\acrodef\x7bAB\x7d\x7bFull \x7bnested\x7d Form\x7d".data
      = ('\\' :: 'a' :: "crodef\x7bAB\x7d\x7bFull \x7bnested\x7d Form\x7d".data) ++ [] from rfl]
  rw [scan_newacronym_step_a _ _ (by decide),
    scan_nil_of_fail _ run_newacronym_nil]
  rw [scan_newcommand_step_a _ _ (by decide),
    scan_nil_of_fail _ run_newcommand_nil]
  rfl

theorem run_newacronym_nested :
    run newacronym_pattern "\\newacronym\x7bGCD\x7d\x7bGCD\x7d\x7bGreatest \x7bCommon\x7d Divisor\x7d".data
      = [(39, [(1, "GCD"), (2, "GCD"), (3, "Greatest \x7bCommon")])] := by
  rw [show "\\newacronym\x7bGCD\x7d\x7bGCD\x7d\x7bGreatest \x7bCommon\x7d Divisor\x7d".data
      = '\\' :: 'n' :: 'e' :: 'w' :: 'a' :: 'c' :: 'r' :: 'o' :: 'n' :: 'y' :: 'm' ::
        '{' :: ("GCD".data ++ '}' :: '{' ::
          ("GCD".data ++ '}' :: '{' ::
            ("Greatest \x7bCommon".data ++ '}' :: " Divisor\x7d".data))) from rfl]
  rw [newacronym_pattern,
    show "\\newacronym".data
      = ['\\', 'n', 'e', 'w', 'a', 'c', 'r', 'o', 'n', 'y', 'm'] from rfl]
  simp only [lits]
  rw [run_seq_lit_cons, if_pos rfl]
  rw [run_seq_lit_cons, if_pos rfl]
  rw [run_seq_lit_cons, if_pos rfl]
  rw [run_seq_lit_cons, if_pos rfl]
  rw [run_seq_lit_cons, if_pos rfl]
  rw [run_seq_lit_cons, if_pos rfl]
  rw [run_seq_lit_cons, if_pos rfl]
  rw [run_seq_lit_cons, if_pos rfl]
  rw [run_seq_lit_cons, if_pos rfl]
  rw [run_seq_lit_cons, if_pos rfl]
  rw [run_seq_lit_cons, if_pos rfl]
  rw [run_opt_skip _ _ _ (by decide)]
  rw [run_wsStar_skip _ _ _ (by decide)]
  rw [run_seq_lit_cons, if_pos rfl]
  rw [run_nbArg 1 _ "GCD".data _ (by decide) (by decide)]
  rw [run_wsStar_skip _ _ _ (by decide)]
  rw [run_seq_lit_cons, if_pos rfl]
  rw [run_nbArg 2 _ "GCD".data _ (by decide) (by decide)]
  rw [run_wsStar_skip _ _ _ (by decide)]
  rw [run_seq_lit_cons, if_pos rfl]
  rw [run_nbArg_end 3 "Greatest \x7bCommon".data _ (by decide) (by decide)]
  decide

theorem scan_newacronym_nested :
    scan newacronym_pattern "\\newacronym\x7bGCD\x7d\x7bGCD\x7d\x7bGreatest \x7bCommon\x7d Divisor\x7d".data
      = [("\\newacronym\x7bGCD\x7d\x7bGCD\x7d\x7bGreatest \x7bCommon\x7d",
          [(1, "GCD"), (2, "GCD"), (3, "Greatest \x7bCommon")])] := by
  have htl := run_newacronym_nested
  rw [show "\\newacronym\x7bGCD\x7d\x7bGCD\x7d\x7bGreatest \x7bCommon\x7d Divisor\x7d".data
      = '\\' :: "newacronym\x7bGCD\x7d\x7bGCD\x7d\x7bGreatest \x7bCommon\x7d Divisor\x7d".data from rfl]
    at htl ⊢
  rw [scan_cons_of_head _ _ _ 39 _ [] htl]
  rw [show ('\\' :: "newacronym\x7bGCD\x7d\x7bGCD\x7d\x7bGreatest \x7bCommon\x7d Divisor\x7d".data).drop
      (max 39 1) = " Divisor\x7d".data from rfl]
  rw [scan_no_bs _ run_newacronym_head_ne run_newacronym_nil _ (by decide)]
  rw [show ('\\' :: "newacronym\x7bGCD\x7d\x7bGCD\x7d\x7bGreatest \x7bCommon\x7d Divisor\x7d".data).take 39
      = "\\newacronym\x7bGCD\x7d\x7bGCD\x7d\x7bGreatest \x7bCommon\x7d".data from rfl]

theorem read_acrodefs_nested_newacronym (d : PyDateTime) (p : String) :
    read_acrodefs (some "\\newacronym\x7bGCD\x7d\x7bGCD\x7d\x7bGreatest \x7bCommon\x7d Divisor\x7d") d p
      = [⟨"GCD", "\\newacronym\x7bGCD\x7d\x7bGCD\x7d\x7bGreatest \x7bCommon\x7d", "newacronym", d, p⟩] := by
  rw [read_acrodefs_some, scan_newacronym_nested]
  rw [show "\\newacronym\x7bGCD\x7d\x7bGCD\x7d\x7bGreatest \x7bCommon\x7d Divisor\x7d".data
      = ('\\' :: 'n' :: "ewacronym\x7bGCD\x7d\x7bGCD\x7d\x7bGreatest \x7bCommon\x7d Divisor\x7d".data)
          ++ [] from rfl]
  rw [scan_acrodef_step_n _ _ (by decide),
    scan_nil_of_fail _ run_acrodef_nil]
  rw [show ('\\' :: 'n' :: "ewacronym\x7bGCD\x7d\x7bGCD\x7d\x7bGreatest \x7bCommon\x7d Divisor\x7d".data)
        ++ ([] : List Char)
      = ('\\' :: 'n' :: 'e' :: 'w' :: 'a' ::
          "cronym\x7bGCD\x7d\x7bGCD\x7d\x7bGreatest \x7bCommon\x7d Divisor\x7d".data) ++ [] from rfl]
  rw [scan_newcommand_step_newa _ _ (by decide),
    scan_nil_of_fail _ run_newcommand_nil]
  rfl

theorem run_newcommand_nested :
    (run newcommand_pattern "\\newcommand\x7b\\cmd\x7d\x7bFull \x7bnested\x7d Form\x7d".data).head?
      = some (31, [(1, "\\cmd"), (2, "Full \x7bnested")]) := by
  rw [show "\\newcommand\x7b\\cmd\x7d\x7bFull \x7bnested\x7d Form\x7d".data
      = '\\' :: 'n' :: 'e' :: 'w' :: 'c' :: 'o' :: 'm' :: 'm' :: 'a' :: 'n' :: 'd' ::
        '{' :: ("\\cmd".data ++ '}' :: '{' ::
          ("Full ".data ++ '{' ::
            ("nested".data ++ '}' :: " Form\x7d".data))) from rfl]
  rw [newcommand_pattern,
    show "\\newcommand".data
      = ['\\', 'n', 'e', 'w', 'c', 'o', 'm', 'm', 'a', 'n', 'd'] from rfl]
  simp only [lits]
  rw [run_seq_lit_cons, if_pos rfl]
  rw [run_seq_lit_cons, if_pos rfl]
  rw [run_seq_lit_cons, if_pos rfl]
  rw [run_seq_lit_cons, if_pos rfl]
  rw [run_seq_lit_cons, if_pos rfl]
  rw [run_seq_lit_cons, if_pos rfl]
  rw [run_seq_lit_cons, if_pos rfl]
  rw [run_seq_lit_cons, if_pos rfl]
  rw [run_seq_lit_cons, if_pos rfl]
  rw [run_seq_lit_cons, if_pos rfl]
  rw [run_seq_lit_cons, if_pos rfl]
  rw [run_wsStar_skip _ _ _ (by decide)]
  rw [run_seq_lit_cons, if_pos rfl]
  rw [run_nbArg 1 _ "\\cmd".data _ (by decide) (by decide)]
  rw [run_opt_skip _ _ _ (by decide)]
  rw [run_wsStar_skip _ _ _ (by decide)]
  rw [run_seq_lit_cons, if_pos rfl]
  obtain ⟨tl0, h0⟩ := run_bodyArgNested 2 "Full ".data "nested".data
    " Form\x7d".data (by decide) (by decide)
  rw [h0]
  simp only [List.map_cons, List.head?_cons]
  decide

theorem scan_newcommand_nested :
    scan newcommand_pattern "\\newcommand\x7b\\cmd\x7d\x7bFull \x7bnested\x7d Form\x7d".data
      = [("\\newcommand\x7b\\cmd\x7d\x7bFull \x7bnested\x7d",
          [(1, "\\cmd"), (2, "Full \x7bnested")])] := by
  have htl := run_newcommand_nested
  rw [show "\\newcommand\x7b\\cmd\x7d\x7bFull \x7bnested\x7d Form\x7d".data
      = '\\' :: "newcommand\x7b\\cmd\x7d\x7bFull \x7bnested\x7d Form\x7d".data from rfl] at htl ⊢
  rw [scan_cons_of_head_opt _ _ _ 31 _ htl]
  rw [show ('\\' :: "newcommand\x7b\\cmd\x7d\x7bFull \x7bnested\x7d Form\x7d".data).drop (max 31 1)
      = " Form\x7d".data from rfl]
  rw [scan_no_bs _ run_newcommand_head_ne run_newcommand_nil _ (by decide)]
  rw [show ('\\' :: "newcommand\x7b\\cmd\x7d\x7bFull \x7bnested\x7d Form\x7d".data).take 31
      = "\\newcommand\x7b\\cmd\x7d\x7bFull \x7bnested\x7d".data from rfl]

theorem read_acrodefs_nested_newcommand (d : PyDateTime) (p : String) :
    read_acrodefs (some "\\newcommand\x7b\\cmd\x7d\x7bFull \x7bnested\x7d Form\x7d") d p
      = [⟨"\\cmd", "\\newcommand\x7b\\cmd\x7d\x7bFull \x7bnested\x7d", "newcommand", d, p⟩] := by
  rw [read_acrodefs_some, scan_newcommand_nested]
  rw [show "\\newcommand\x7b\\cmd\x7d\x7bFull \x7bnested\x7d Form\x7d".data
      = ('\\' :: 'n' :: "ewcommand\x7b".data) ++
        (('\\' :: 'c' :: "md\x7d\x7bFull \x7bnested\x7d Form\x7d".data) ++ []) from rfl]
  rw [scan_acrodef_step_n _ _ (by decide),
    scan_acrodef_step_c _ _ (by decide),
    scan_nil_of_fail _ run_acrodef_nil]
  rw [show ('\\' :: 'n' :: "ewcommand\x7b".data)
      = '\\' :: 'n' :: 'e' :: 'w' :: 'c' :: "ommand\x7b".data from rfl]
  rw [show ('\\' :: 'n' :: 'e' :: 'w' :: 'c' :: "ommand\x7b".data) ++
        (('\\' :: 'c' :: "md\x7d\x7bFull \x7bnested\x7d Form\x7d".data) ++ [])
      = ('\\' :: 'n' :: 'e' :: 'w' :: 'c' :: "ommand\x7b".data) ++
        (('\\' :: 'c' :: "md\x7d\x7bFull \x7bnested\x7d Form\x7d".data) ++ []) from rfl]
  rw [scan_newacronym_step_newc _ _ (by decide),
    scan_newacronym_step_c _ _ (by decide),
    scan_nil_of_fail _ run_newacronym_nil]
  rfl

/-! ## The merge engine: association-list lemmas -/

theorem mergeEntries_nil (st : MapT × List Diag) : mergeEntries [] st = .ok st := rfl

theorem mergeEntries_cons (e : Entry) (es : List Entry) (st : MapT × List Diag) :
    mergeEntries (e :: es) st
      = (mergeStep st e).bind fun st' => mergeEntries es st' := by
  simp [mergeEntries, List.foldlM_cons]
  rfl

theorem lookup_append (m1 m2 : MapT) (k : String) :
    (m1 ++ m2).lookup k
      = match m1.lookup k with
        | some v => some v
        | none => m2.lookup k := by
  induction m1 with
  | nil => simp
  | cons p t ih =>
    rcases p with ⟨a, b⟩
    rw [List.cons_append, List.lookup_cons, List.lookup_cons]
    by_cases h : (k == a) = true
    · simp only [h]
    · simp only [eq_false_of_ne_true h]
      exact ih

theorem updateA_nil (k : String) (v : Stored) : updateA [] k v = [] := rfl

theorem updateA_cons (p : String × Stored) (t : MapT) (k : String) (v : Stored) :
    updateA (p :: t) k v = (if p.1 = k then (k, v) else p) :: updateA t k v := by
  simp [updateA]

theorem lookup_updateA_self (m : MapT) (k : String) (v w : Stored)
    (h : m.lookup k = some w) : (updateA m k v).lookup k = some v := by
  induction m with
  | nil => simp [List.lookup] at h
  | cons p t ih =>
    rw [updateA_cons]
    by_cases hk : p.1 = k
    · rw [if_pos hk]
      simp [List.lookup_cons]
    · rw [if_neg hk]
      have hbeq : (k == p.1) = false := by
        simp only [beq_eq_false_iff_ne, ne_eq]
        exact fun hh => hk hh.symm
      rw [List.lookup_cons] at h
      simp only [hbeq] at h
      rw [List.lookup_cons]
      simp only [hbeq]
      exact ih h

theorem lookup_updateA_ne (m : MapT) (k k' : String) (v : Stored) (h : k' ≠ k) :
    (updateA m k v).lookup k' = m.lookup k' := by
  induction m with
  | nil => rw [updateA_nil]
  | cons p t ih =>
    rw [updateA_cons]
    by_cases hk : p.1 = k
    · rw [if_pos hk]
      have h1 : (k' == k) = false := by simp [h]
      have h2 : (k' == p.1) = false := by simp [hk ▸ h]
      rw [List.lookup_cons, List.lookup_cons]
      simp only [h1, h2]
      exact ih
    · rw [if_neg hk, List.lookup_cons, List.lookup_cons]
      by_cases hkp : (k' == p.1) = true
      · simp only [hkp]
      · simp only [eq_false_of_ne_true hkp]
        exact ih

theorem lookup_mem (m : MapT) (k : String) (v : Stored)
    (h : m.lookup k = some v) : (k, v) ∈ m := by
  induction m with
  | nil => simp [List.lookup] at h
  | cons p t ih =>
    rw [List.lookup_cons] at h
    by_cases hk : (k == p.1) = true
    · simp only [hk] at h
      have hkp : k = p.1 := by simpa using hk
      have hv : p.2 = v := Option.some.inj h
      have : (k, v) = p := by rw [hkp, ← hv]
      rw [this]
      exact List.mem_cons_self _ _
    · simp only [eq_false_of_ne_true hk] at h
      exact List.mem_cons_of_mem _ (ih h)

theorem mem_updateA (m : MapT) (k : String) (v : Stored) (q : String × Stored)
    (h : q ∈ updateA m k v) : q ∈ m ∨ q = (k, v) := by
  rw [updateA, List.mem_map] at h
  obtain ⟨a, ha, hq⟩ := h
  by_cases hak : a.1 = k
  · rw [if_pos hak] at hq
    exact Or.inr hq.symm
  · rw [if_neg hak] at hq
    exact Or.inl (hq ▸ ha)

/-! ## The merge step, case by case -/

theorem mergeStep_not_found (m : MapT) (ds : List Diag) (e : Entry)
    (h : m.lookup e.label = none) :
    mergeStep (m, ds) e = .ok (m ++ [(e.label, e.toStored)], ds) := by
  simp [mergeStep, h]

theorem mergeStep_found_eq (m : MapT) (ds : List Diag) (e : Entry) (ex : Stored)
    (h : m.lookup e.label = some ex) (hdef : e.definition = ex.definition) :
    mergeStep (m, ds) e = .ok (m, ds) := by
  simp [mergeStep, h, hdef]

theorem mergeStep_found_ne (m : MapT) (ds : List Diag) (e : Entry) (ex : Stored)
    (h : m.lookup e.label = some ex) (hdef : ¬ e.definition = ex.definition)
    (htz : e.file_date.tz = ex.date.tz) :
    mergeStep (m, ds) e =
      if dateLtB ex.date e.file_date then
        .ok (updateA m e.label e.toStored,
          ds ++ [.updating e.label (fmtDate e.file_date) (fmtDate ex.date)])
      else
        .ok (m, ds ++ [.skippingOlder e.label (fmtDate e.file_date)]) := by
  simp only [mergeStep, h, if_neg hdef, pyGT, if_pos htz]
  by_cases hlt : dateLtB ex.date e.file_date
  · simp only [hlt, if_pos hlt]
    rfl
  · simp only [eq_false_of_ne_true hlt, if_neg hlt]
    rfl

theorem mergeStep_found_mixed (m : MapT) (ds : List Diag) (e : Entry) (ex : Stored)
    (h : m.lookup e.label = some ex) (hdef : ¬ e.definition = ex.definition)
    (htz : ¬ e.file_date.tz = ex.date.tz) :
    mergeStep (m, ds) e = .error .typeError := by
  simp only [mergeStep, h, if_neg hdef, pyGT, if_neg htz]
  rfl

/-! ## Order facts for the datetime model -/

theorem dateLtB_irrefl (a : PyDateTime) : dateLtB a a = false := by
  simp [dateLtB]

theorem dateLtB_iff (a b : PyDateTime) :
    dateLtB a b = true ↔
      (a.year < b.year ∨ (a.year = b.year ∧ (a.month < b.month ∨ (a.month = b.month ∧
        (a.day < b.day ∨ (a.day = b.day ∧ a.sod < b.sod)))))) := by
  by_cases h1 : a.year = b.year <;> by_cases h2 : a.month = b.month <;>
    by_cases h3 : a.day = b.day <;> simp [dateLtB, h1, h2, h3]

/-- `datetime.min` is strictly below every other valid naive datetime. -/
theorem dateLtB_min_lt (d : PyDateTime) (hv : d.valid) (hne : d ≠ datetime_min)
    (htz : d.tz = .naive) : dateLtB datetime_min d = true := by
  obtain ⟨hy, hm, hd⟩ := hv
  have hfields : ¬ (d.year = 1 ∧ d.month = 1 ∧ d.day = 1 ∧ d.sod = 0) := by
    rintro ⟨h1, h2, h3, h4⟩
    rcases d with ⟨y, mo, da, so, tz⟩
    simp only at h1 h2 h3 h4 htz
    subst h1; subst h2; subst h3; subst h4; subst htz
    exact hne rfl
  rw [dateLtB_iff]
  simp only [datetime_min]
  omega

/-- Nothing valid is strictly below `datetime.min`. -/
theorem dateLtB_to_min_false (d : PyDateTime) (hv : d.valid) :
    dateLtB d datetime_min = false := by
  obtain ⟨hy, hm, hd⟩ := hv
  rw [Bool.eq_false_iff]
  intro hcon
  rw [dateLtB_iff] at hcon
  simp only [datetime_min] at hcon
  omega

/-! ## The running winner of the merge -/

theorem mergeEntries_cons_ok (e : Entry) (es : List Entry)
    (st st' : MapT × List Diag) (h : mergeStep st e = .ok st') :
    mergeEntries (e :: es) st = mergeEntries es st' := by
  rw [mergeEntries_cons, h]
  rfl

theorem mergeEntries_cons_error (e : Entry) (es : List Entry)
    (st : MapT × List Diag) (x : PyExn) (h : mergeStep st e = .error x) :
    mergeEntries (e :: es) st = .error x := by
  rw [mergeEntries_cons, h]
  rfl

theorem foldl_pickNewer_mem (x : Entry) (t : List Entry) :
    t.foldl pickNewer x ∈ x :: t := by
  induction t generalizing x with
  | nil => simp
  | cons y t ih =>
    rw [List.foldl_cons]
    rcases List.mem_cons.mp (ih (pickNewer x y)) with h | h
    · rw [h]
      by_cases hlt : dateLtB x.file_date y.file_date <;> simp [pickNewer, hlt]
    · exact List.mem_cons_of_mem _ (List.mem_cons_of_mem _ h)

theorem winner_mem (L : String) (es : List Entry) (w : Entry)
    (h : winner L es = some w) : w ∈ es ∧ w.label = L := by
  unfold winner at h
  cases hf : es.filter (fun e => e.label = L) with
  | nil =>
    rw [hf] at h
    simp at h
  | cons x t =>
    rw [hf] at h
    simp only [Option.some.injEq] at h
    have hmem : w ∈ x :: t := h ▸ foldl_pickNewer_mem x t
    have hmemf : w ∈ es.filter (fun e => e.label = L) := hf ▸ hmem
    exact ⟨List.mem_of_mem_filter hmemf, by simpa using List.of_mem_filter hmemf⟩

theorem winner_append_ne (L : String) (ps : List Entry) (e : Entry)
    (h : ¬ e.label = L) : winner L (ps ++ [e]) = winner L ps := by
  unfold winner
  rw [List.filter_append]
  simp [h]

theorem winner_append_self_none (L : String) (ps : List Entry) (e : Entry)
    (he : e.label = L) (h : winner L ps = none) :
    winner L (ps ++ [e]) = some e := by
  unfold winner at h ⊢
  cases hf : ps.filter (fun x => x.label = L) with
  | cons x t =>
    rw [hf] at h
    simp at h
  | nil =>
    rw [List.filter_append, hf]
    simp [he]

theorem winner_append_self_some (L : String) (ps : List Entry) (e w : Entry)
    (he : e.label = L) (h : winner L ps = some w) :
    winner L (ps ++ [e]) = some (pickNewer w e) := by
  unfold winner at h ⊢
  cases hf : ps.filter (fun x => x.label = L) with
  | nil =>
    rw [hf] at h
    simp at h
  | cons x t =>
    rw [hf] at h
    simp only [Option.some.injEq] at h
    rw [List.filter_append, hf]
    have hfe : [e].filter (fun x => x.label = L) = [e] := by simp [he]
    rw [hfe, List.cons_append]
    simp only [List.foldl_append, List.foldl_cons, List.foldl_nil, h]

/-- The merge loop tracks, per label, the first entry carrying the running
maximum timestamp — provided no two same-label entries share their raw text
(else the silent-skip branch freezes the stored timestamp) and same-label
timestamps are uniformly aware or uniformly naive (else the comparison
raises). -/
theorem mergeEntries_winner (es : List Entry) :
    ∀ (ps : List Entry) (m : MapT) (ds : List Diag),
    (∀ L, m.lookup L = (winner L ps).map Entry.toStored) →
    ((ps ++ es).Pairwise fun a b => a.label = b.label → a.definition ≠ b.definition) →
    (∀ a ∈ ps ++ es, ∀ b ∈ ps ++ es, a.label = b.label →
      a.file_date.tz = b.file_date.tz) →
    ∃ m' ds', mergeEntries es (m, ds) = .ok (m', ds') ∧
      ∀ L, m'.lookup L = (winner L (ps ++ es)).map Entry.toStored := by
  induction es with
  | nil =>
    intro ps m ds hrep _ _
    exact ⟨m, ds, mergeEntries_nil _, by simpa using hrep⟩
  | cons e es ih =>
    intro ps m ds hrep hdist htz
    have hassoc : (ps ++ [e]) ++ es = ps ++ e :: es := by simp
    have hemem : e ∈ ps ++ e :: es := List.mem_append_right _ (List.mem_cons_self _ _)
    cases hw : winner e.label ps with
    | none =>
      have hlook : m.lookup e.label = none := by rw [hrep, hw]; rfl
      rw [mergeEntries_cons_ok e es _ _ (mergeStep_not_found m ds e hlook)]
      have hrep' : ∀ L, (m ++ [(e.label, e.toStored)]).lookup L
          = (winner L (ps ++ [e])).map Entry.toStored := by
        intro L
        rw [lookup_append, hrep L]
        by_cases hL : e.label = L
        · rw [← hL, hw]
          rw [winner_append_self_none e.label ps e rfl (hL ▸ hw)]
          simp [List.lookup_cons]
        · rw [winner_append_ne L ps e hL]
          cases winner L ps with
          | some v => rfl
          | none =>
            have : (L == e.label) = false := by
              simp only [beq_eq_false_iff_ne, ne_eq]
              exact fun hh => hL hh.symm
            simp [List.lookup_cons, this, List.lookup]
      obtain ⟨m', ds', hmerge, hrep''⟩ :=
        ih (ps ++ [e]) _ ds hrep' (hassoc ▸ hdist) (hassoc ▸ htz)
      exact ⟨m', ds', hmerge, fun L => by rw [← hassoc]; exact hrep'' L⟩
    | some w =>
      obtain ⟨hwmem, hwlab⟩ := winner_mem _ _ _ hw
      have hlook : m.lookup e.label = some w.toStored := by rw [hrep, hw]; rfl
      have hde : ¬ e.definition = w.toStored.definition := by
        have hpw := (List.pairwise_append.mp hdist).2.2
        have hwd := hpw w hwmem e (List.mem_cons_self _ _) hwlab
        exact fun hc => hwd hc.symm
      have htze : e.file_date.tz = w.toStored.date.tz :=
        htz e hemem w (List.mem_append_left _ hwmem) hwlab.symm
      have hpick : ∀ L, e.label = L →
          winner L (ps ++ [e]) = some (pickNewer w e) :=
        fun L hL => winner_append_self_some L ps e w hL (hL ▸ hw)
      by_cases hlt : dateLtB w.toStored.date e.file_date
      · have hstep := mergeStep_found_ne m ds e w.toStored hlook hde htze
        rw [if_pos hlt] at hstep
        rw [mergeEntries_cons_ok e es _ _ hstep]
        have hpicke : pickNewer w e = e := by
          have hlt2 : dateLtB w.file_date e.file_date = true := hlt
          simp only [pickNewer]
          rw [if_pos hlt2]
        have hrep' : ∀ L, (updateA m e.label e.toStored).lookup L
            = (winner L (ps ++ [e])).map Entry.toStored := by
          intro L
          by_cases hL : e.label = L
          · rw [← hL, lookup_updateA_self m e.label _ _ hlook,
              hpick e.label rfl, hpicke]
            rfl
          · rw [lookup_updateA_ne m e.label L _ (fun hh => hL hh.symm),
              hrep L, winner_append_ne L ps e hL]
        obtain ⟨m', ds', hmerge, hrep''⟩ :=
          ih (ps ++ [e]) _ _ hrep' (hassoc ▸ hdist) (hassoc ▸ htz)
        exact ⟨m', ds', hmerge, fun L => by rw [← hassoc]; exact hrep'' L⟩
      · have hstep := mergeStep_found_ne m ds e w.toStored hlook hde htze
        rw [if_neg hlt] at hstep
        rw [mergeEntries_cons_ok e es _ _ hstep]
        have hpicke : pickNewer w e = w := by
          have hlt2 : ¬ dateLtB w.file_date e.file_date = true := hlt
          simp only [pickNewer]
          rw [if_neg hlt2]
        have hrep' : ∀ L, m.lookup L
            = (winner L (ps ++ [e])).map Entry.toStored := by
          intro L
          by_cases hL : e.label = L
          · rw [← hL, hlook, hpick e.label rfl, hpicke]
            rfl
          · rw [hrep L, winner_append_ne L ps e hL]
        obtain ⟨m', ds', hmerge, hrep''⟩ :=
          ih (ps ++ [e]) _ _ hrep' (hassoc ▸ hdist) (hassoc ▸ htz)
        exact ⟨m', ds', hmerge, fun L => by rw [← hassoc]; exact hrep'' L⟩

/-! ## Claim C1 -/

/-- **C1, counterexample.**  The claim says the final stored entry per label
carries the *maximum* timestamp among all entries of that label, for any
permutation.  Entries `Alpha@2020`, `Alpha@2024` (byte-identical raw text),
`Beta@2022` under one label refute it: in the order listed, the second
`Alpha` is silently skipped as a byte-identical duplicate — freezing the
stored timestamp at 2020 — and `Beta@2022` then displaces it, although the
maximum timestamp of the label is 2024; the claim-side `winner` designates
`Alpha@2024`.  The reversed-looking order instead ends with `Alpha@2024`, so
the outcome is also permutation-dependent. -/
theorem c1_counterexample :
    mergeEntries
        [⟨"L", "\\acrodef\x7bL\x7d\x7bAlpha\x7d", "acrodef", ⟨2020, 1, 1, 0, .naive⟩, "f1.tex"⟩,
         ⟨"L", "\\acrodef\x7bL\x7d\x7bAlpha\x7d", "acrodef", ⟨2024, 1, 1, 0, .naive⟩, "f2.tex"⟩,
         ⟨"L", "\\acrodef\x7bL\x7d\x7bBeta\x7d", "acrodef", ⟨2022, 1, 1, 0, .naive⟩, "f3.tex"⟩]
        ([], [])
      = .ok ([("L", ⟨"\\acrodef\x7bL\x7d\x7bBeta\x7d", "acrodef", ⟨2022, 1, 1, 0, .naive⟩,
            "f3.tex"⟩)],
          [.updating "L" "2022-01-01" "2020-01-01"]) ∧
    (winner "L"
        [⟨"L", "\\acrodef\x7bL\x7d\x7bAlpha\x7d", "acrodef", ⟨2020, 1, 1, 0, .naive⟩, "f1.tex"⟩,
         ⟨"L", "\\acrodef\x7bL\x7d\x7bAlpha\x7d", "acrodef", ⟨2024, 1, 1, 0, .naive⟩, "f2.tex"⟩,
         ⟨"L", "\\acrodef\x7bL\x7d\x7bBeta\x7d", "acrodef", ⟨2022, 1, 1, 0, .naive⟩, "f3.tex"⟩]).map
        Entry.toStored
      = some ⟨"\\acrodef\x7bL\x7d\x7bAlpha\x7d", "acrodef", ⟨2024, 1, 1, 0, .naive⟩, "f2.tex"⟩ ∧
    mergeEntries
        [⟨"L", "\\acrodef\x7bL\x7d\x7bAlpha\x7d", "acrodef", ⟨2024, 1, 1, 0, .naive⟩, "f2.tex"⟩,
         ⟨"L", "\\acrodef\x7bL\x7d\x7bBeta\x7d", "acrodef", ⟨2022, 1, 1, 0, .naive⟩, "f3.tex"⟩,
         ⟨"L", "\\acrodef\x7bL\x7d\x7bAlpha\x7d", "acrodef", ⟨2020, 1, 1, 0, .naive⟩, "f1.tex"⟩]
        ([], [])
      = .ok ([("L", ⟨"\\acrodef\x7bL\x7d\x7bAlpha\x7d", "acrodef", ⟨2024, 1, 1, 0, .naive⟩,
            "f2.tex"⟩)],
          [.skippingOlder "L" "2022-01-01"]) := by
  refine ⟨by decide, by decide, by decide⟩

/-- **C1 (amended).**  If no two entries sharing a label have byte-identical
raw text, and same-label timestamps are uniformly aware or uniformly naive,
then for *any* processing order the merge succeeds and the final stored
entry of every label is `winner L es` — the first entry, in that order,
carrying the maximum timestamp among the label's entries (ties at the
maximum go to the earliest); in particular, once the stored entry carries
the maximum timestamp seen so far, no later entry with a smaller-or-equal
timestamp displaces it. -/
theorem c1_theorem (es : List Entry)
    (hdist : es.Pairwise fun a b => a.label = b.label → a.definition ≠ b.definition)
    (htz : ∀ a ∈ es, ∀ b ∈ es, a.label = b.label →
      a.file_date.tz = b.file_date.tz) :
    ∃ m ds, mergeEntries es ([], []) = .ok (m, ds) ∧
      ∀ L, m.lookup L = (winner L es).map Entry.toStored := by
  obtain ⟨m, ds, h1, h2⟩ :=
    mergeEntries_winner es [] [] [] (fun _ => rfl)
      (by simpa using hdist) (by simpa using htz)
  exact ⟨m, ds, h1, by simpa using h2⟩

theorem c1_witness :
    ∃ m ds,
      mergeEntries
          [⟨"CPU", "\\acrodef\x7bCPU\x7d\x7bCentral Processing Unit\x7d", "acrodef",
              ⟨2020, 1, 1, 0, .naive⟩, "a.tex"⟩,
           ⟨"CPU", "\\acrodef\x7bCPU\x7d\x7bCentral Processing Unit (legacy)\x7d", "acrodef",
              ⟨2024, 1, 1, 0, .naive⟩, "b.tex"⟩]
          ([], [])
        = .ok (m, ds) ∧
      ∀ L, m.lookup L
        = (winner L
            [⟨"CPU", "\\acrodef\x7bCPU\x7d\x7bCentral Processing Unit\x7d", "acrodef",
                ⟨2020, 1, 1, 0, .naive⟩, "a.tex"⟩,
             ⟨"CPU", "\\acrodef\x7bCPU\x7d\x7bCentral Processing Unit (legacy)\x7d", "acrodef",
                ⟨2024, 1, 1, 0, .naive⟩, "b.tex"⟩]).map Entry.toStored :=
  c1_theorem _ (by decide) (by decide)

/-! ## Claim C2 -/

/-- **C2.**  The merge update rule for an already-seen label: a byte-identical
raw text leaves the stored entry and the diagnostics unchanged; a differing
raw text replaces the stored entry exactly when the new timestamp compares
strictly greater (emitting an updating diagnostic naming both dates, and a
skipping diagnostic otherwise); equal timestamps keep the existing entry. -/
theorem c2_theorem (m : MapT) (ds : List Diag) (e : Entry) (ex : Stored)
    (hlook : m.lookup e.label = some ex) :
    (e.definition = ex.definition → mergeStep (m, ds) e = .ok (m, ds)) ∧
    (e.definition ≠ ex.definition → e.file_date.tz = ex.date.tz →
      ((dateLtB ex.date e.file_date = true →
          mergeStep (m, ds) e = .ok (updateA m e.label e.toStored,
            ds ++ [.updating e.label (fmtDate e.file_date) (fmtDate ex.date)])) ∧
       (dateLtB ex.date e.file_date = false →
          mergeStep (m, ds) e
            = .ok (m, ds ++ [.skippingOlder e.label (fmtDate e.file_date)])) ∧
       (e.file_date = ex.date →
          mergeStep (m, ds) e
            = .ok (m, ds ++ [.skippingOlder e.label (fmtDate e.file_date)])))) := by
  refine ⟨fun hdef => mergeStep_found_eq m ds e ex hlook hdef, fun hdef htz => ?_⟩
  refine ⟨fun hlt => ?_, fun hlt => ?_, fun heq => ?_⟩
  · rw [mergeStep_found_ne m ds e ex hlook hdef htz, if_pos hlt]
  · rw [mergeStep_found_ne m ds e ex hlook hdef htz, if_neg (by simp [hlt])]
  · rw [mergeStep_found_ne m ds e ex hlook hdef htz,
      if_neg (by rw [heq, dateLtB_irrefl]; simp)]

theorem c2_witness :
    (mergeStep ([("L", ⟨"\\acrodef\x7bL\x7d\x7bAlpha\x7d", "acrodef", ⟨2020, 1, 1, 0, .naive⟩,
          "a.tex"⟩)], [])
        ⟨"L", "\\acrodef\x7bL\x7d\x7bAlpha\x7d", "acrodef", ⟨2024, 1, 1, 0, .naive⟩, "b.tex"⟩
      = .ok ([("L", ⟨"\\acrodef\x7bL\x7d\x7bAlpha\x7d", "acrodef", ⟨2020, 1, 1, 0, .naive⟩,
          "a.tex"⟩)], [])) ∧
    (mergeStep ([("L", ⟨"\\acrodef\x7bL\x7d\x7bAlpha\x7d", "acrodef", ⟨2020, 1, 1, 0, .naive⟩,
          "a.tex"⟩)], [])
        ⟨"L", "\\acrodef\x7bL\x7d\x7bBeta\x7d", "acrodef", ⟨2024, 1, 1, 0, .naive⟩, "b.tex"⟩
      = .ok (updateA [("L", ⟨"\\acrodef\x7bL\x7d\x7bAlpha\x7d", "acrodef",
            ⟨2020, 1, 1, 0, .naive⟩, "a.tex"⟩)] "L"
          (Entry.toStored ⟨"L", "\\acrodef\x7bL\x7d\x7bBeta\x7d", "acrodef",
            ⟨2024, 1, 1, 0, .naive⟩, "b.tex"⟩),
          [.updating "L" "2024-01-01" "2020-01-01"])) ∧
    (mergeStep ([("L", ⟨"\\acrodef\x7bL\x7d\x7bAlpha\x7d", "acrodef", ⟨2020, 1, 1, 0, .naive⟩,
          "a.tex"⟩)], [])
        ⟨"L", "\\acrodef\x7bL\x7d\x7bBeta\x7d", "acrodef", ⟨2020, 1, 1, 0, .naive⟩, "b.tex"⟩
      = .ok ([("L", ⟨"\\acrodef\x7bL\x7d\x7bAlpha\x7d", "acrodef", ⟨2020, 1, 1, 0, .naive⟩,
          "a.tex"⟩)], [.skippingOlder "L" "2020-01-01"])) := by
  have hsame := c2_theorem
    [("L", ⟨"\\acrodef\x7bL\x7d\x7bAlpha\x7d", "acrodef", ⟨2020, 1, 1, 0, .naive⟩, "a.tex"⟩)] []
    ⟨"L", "\\acrodef\x7bL\x7d\x7bAlpha\x7d", "acrodef", ⟨2024, 1, 1, 0, .naive⟩, "b.tex"⟩
    ⟨"\\acrodef\x7bL\x7d\x7bAlpha\x7d", "acrodef", ⟨2020, 1, 1, 0, .naive⟩, "a.tex"⟩ (by decide)
  have hnew := c2_theorem
    [("L", ⟨"\\acrodef\x7bL\x7d\x7bAlpha\x7d", "acrodef", ⟨2020, 1, 1, 0, .naive⟩, "a.tex"⟩)] []
    ⟨"L", "\\acrodef\x7bL\x7d\x7bBeta\x7d", "acrodef", ⟨2024, 1, 1, 0, .naive⟩, "b.tex"⟩
    ⟨"\\acrodef\x7bL\x7d\x7bAlpha\x7d", "acrodef", ⟨2020, 1, 1, 0, .naive⟩, "a.tex"⟩ (by decide)
  have htie := c2_theorem
    [("L", ⟨"\\acrodef\x7bL\x7d\x7bAlpha\x7d", "acrodef", ⟨2020, 1, 1, 0, .naive⟩, "a.tex"⟩)] []
    ⟨"L", "\\acrodef\x7bL\x7d\x7bBeta\x7d", "acrodef", ⟨2020, 1, 1, 0, .naive⟩, "b.tex"⟩
    ⟨"\\acrodef\x7bL\x7d\x7bAlpha\x7d", "acrodef", ⟨2020, 1, 1, 0, .naive⟩, "a.tex"⟩ (by decide)
  exact ⟨hsame.1 (by decide),
    (hnew.2 (by decide) (by decide)).1 (by decide),
    (htie.2 (by decide) (by decide)).2.2 (by decide)⟩

/-! ## Claim C10 -/

/-- **C10.**  The timestamp comparison is partial: when the stored entry's
date came from the version-control query (timezone-aware) and a conflicting
entry's date is naive (filesystem or `datetime.min` fallback), `>` raises
`TypeError`, and the merge of such a mixed pair aborts instead of producing
a mapping. -/
theorem c10_theorem (e1 e2 : Entry) (hlab : e2.label = e1.label)
    (hdef : ¬ e2.definition = e1.definition)
    (h1 : e1.file_date.tz = .aware) (h2 : e2.file_date.tz = .naive) :
    pyGT e2.file_date e1.file_date = .error .typeError ∧
    mergeEntries [e1, e2] ([], []) = .error .typeError := by
  have htzne : ¬ e2.file_date.tz = e1.file_date.tz := by
    rw [h1, h2]
    simp
  constructor
  · simp [pyGT, htzne]
  · have hlook : List.lookup e2.label [(e1.label, e1.toStored)]
        = some e1.toStored := by
      rw [List.lookup_cons]
      simp [hlab]
    rw [mergeEntries_cons_ok e1 [e2] _ _ (mergeStep_not_found [] [] e1 rfl)]
    exact mergeEntries_cons_error e2 [] _ _
      (mergeStep_found_mixed _ _ _ _ hlook hdef htzne)

theorem c10_witness :
    pyGT (⟨2020, 1, 1, 0, .naive⟩ : PyDateTime) ⟨2024, 1, 1, 0, .aware⟩
        = .error .typeError ∧
    mergeEntries
        [⟨"L", "\\acrodef\x7bL\x7d\x7bAlpha\x7d", "acrodef", ⟨2024, 1, 1, 0, .aware⟩, "a.tex"⟩,
         ⟨"L", "\\acrodef\x7bL\x7d\x7bBeta\x7d", "acrodef", ⟨2020, 1, 1, 0, .naive⟩, "b.tex"⟩]
        ([], [])
      = .error .typeError :=
  c10_theorem
    ⟨"L", "\\acrodef\x7bL\x7d\x7bAlpha\x7d", "acrodef", ⟨2024, 1, 1, 0, .aware⟩, "a.tex"⟩
    ⟨"L", "\\acrodef\x7bL\x7d\x7bBeta\x7d", "acrodef", ⟨2020, 1, 1, 0, .naive⟩, "b.tex"⟩
    (by decide) (by decide) (by decide) (by decide)

/-! ## Claim C4 -/

/-- **C4, counterexample.**  The claim says an entry carrying
`datetime.min` always loses to any entry carrying a different timestamp,
regardless of processing order.  When the other entry's timestamp is
timezone-aware (a git-derived date), the comparison instead raises
`TypeError` and the merge aborts with no winner at all, in either order. -/
theorem c4_counterexample :
    (⟨"L", "\\acrodef\x7bL\x7d\x7bAlpha\x7d", "acrodef", datetime_min, "a.tex"⟩ : Entry).file_date
        = datetime_min ∧
    mergeEntries
        [⟨"L", "\\acrodef\x7bL\x7d\x7bAlpha\x7d", "acrodef", datetime_min, "a.tex"⟩,
         ⟨"L", "\\acrodef\x7bL\x7d\x7bBeta\x7d", "acrodef", ⟨2024, 1, 1, 0, .aware⟩, "b.tex"⟩]
        ([], [])
      = .error .typeError ∧
    mergeEntries
        [⟨"L", "\\acrodef\x7bL\x7d\x7bBeta\x7d", "acrodef", ⟨2024, 1, 1, 0, .aware⟩, "b.tex"⟩,
         ⟨"L", "\\acrodef\x7bL\x7d\x7bAlpha\x7d", "acrodef", datetime_min, "a.tex"⟩]
        ([], [])
      = .error .typeError := by
  refine ⟨rfl, by decide, by decide⟩

/-- **C4 (amended).**  An entry whose timestamp resolution totally failed
carries `datetime.min`; against a conflicting entry (same label, different
raw text) whose timestamp is a *naive* valid datetime other than
`datetime.min`, the `datetime.min` entry loses in either processing
order. -/
theorem c4_theorem (e1 e2 : Entry)
    (hlab : e2.label = e1.label)
    (hdef : ¬ e2.definition = e1.definition)
    (hmin : e1.file_date = datetime_min)
    (htz : e2.file_date.tz = .naive)
    (hv : e2.file_date.valid)
    (hne : e2.file_date ≠ datetime_min) :
    (∃ ds, mergeEntries [e1, e2] ([], []) = .ok ([(e1.label, e2.toStored)], ds)) ∧
    (∃ ds, mergeEntries [e2, e1] ([], []) = .ok ([(e2.label, e2.toStored)], ds)) := by
  have htz1 : e1.file_date.tz = .naive := by rw [hmin]; rfl
  constructor
  · rw [mergeEntries_cons_ok e1 [e2] _ _ (mergeStep_not_found [] [] e1 rfl)]
    simp only [List.nil_append]
    have hlook : List.lookup e2.label [(e1.label, e1.toStored)]
        = some e1.toStored := by
      rw [List.lookup_cons]
      simp [hlab]
    have hstep := mergeStep_found_ne [(e1.label, e1.toStored)] [] e2 e1.toStored
      hlook hdef (show e2.file_date.tz = e1.file_date.tz by rw [htz, htz1])
    have hlt : dateLtB e1.toStored.date e2.file_date = true := by
      show dateLtB e1.file_date e2.file_date = true
      rw [hmin]
      exact dateLtB_min_lt e2.file_date hv hne htz
    rw [if_pos hlt] at hstep
    rw [mergeEntries_cons_ok e2 [] _ _ hstep, mergeEntries_nil,
      updateA_cons, updateA_nil, if_pos hlab.symm, hlab]
    exact ⟨_, rfl⟩
  · rw [mergeEntries_cons_ok e2 [e1] _ _ (mergeStep_not_found [] [] e2 rfl)]
    simp only [List.nil_append]
    have hlook : List.lookup e1.label [(e2.label, e2.toStored)]
        = some e2.toStored := by
      rw [List.lookup_cons]
      simp [hlab]
    have hstep := mergeStep_found_ne [(e2.label, e2.toStored)] [] e1 e2.toStored
      hlook (fun hc => hdef hc.symm)
      (show e1.file_date.tz = e2.file_date.tz by rw [htz1, htz])
    have hltr : dateLtB e2.toStored.date e1.file_date = false := by
      show dateLtB e2.file_date e1.file_date = false
      rw [hmin]
      exact dateLtB_to_min_false e2.file_date hv
    rw [if_neg (by simp [hltr])] at hstep
    rw [mergeEntries_cons_ok e1 [] _ _ hstep, mergeEntries_nil]
    exact ⟨_, rfl⟩

/-! ## Claim C3 -/

/-- **C3, counterexample.**  The claim says `get_file_date` never raises —
in particular that an absent `git` binary falls through to the filesystem
time.  But `FileNotFoundError` is an `OSError`, not a
`subprocess.SubprocessError`, so the `except` tuple does not catch it and
the call propagates it, even though the filesystem fallback was available. -/
theorem c3_counterexample :
    get_file_date ⟨true, .binaryMissing, .mtime 2024 5 1 0, some ""⟩
      = .error .fileNotFoundError := rfl

/-- **C3 (amended).**  Timestamp resolution is total *except* when the
version-control binary is absent: timeout, subprocess errors, a nonzero
exit, empty stdout, and unparseable output all fall through to the
filesystem modification time; the filesystem fallback itself never fails,
yielding `datetime.min` on `OSError`; but an absent `git` binary raises
`FileNotFoundError` out of the resolver. -/
theorem c3_theorem (fe : FileEnv) :
    (fe.git ≠ .binaryMissing → ∃ d, get_file_date fe = .ok d) ∧
    (fe.git = .binaryMissing → get_file_date fe = .error .fileNotFoundError) ∧
    (fe.git = .timeoutExpired → get_file_date fe = fsFallback fe) ∧
    (fe.git = .subprocessError → get_file_date fe = fsFallback fe) ∧
    (∀ rc out parsed, fe.git = .completed rc out parsed →
      ((¬ (rc = 0 ∧ pyStrip out ≠ "")) → get_file_date fe = fsFallback fe) ∧
      (parsed = none → get_file_date fe = fsFallback fe)) ∧
    (∃ d, fsFallback fe = .ok d) ∧
    (fe.fs = .osError → fsFallback fe = .ok datetime_min) := by
  have hfb : ∃ d, fsFallback fe = .ok d := by
    cases hfs : fe.fs with
    | mtime y mo da so => exact ⟨⟨y, mo, da, so, .naive⟩, by simp [fsFallback, hfs]⟩
    | osError => exact ⟨datetime_min, by simp [fsFallback, hfs]⟩
  refine ⟨?_, ?_, ?_, ?_, ?_, hfb, ?_⟩
  · intro h
    cases hg : fe.git with
    | timeoutExpired =>
      rw [show get_file_date fe = fsFallback fe by simp [get_file_date, hg]]
      exact hfb
    | subprocessError =>
      rw [show get_file_date fe = fsFallback fe by simp [get_file_date, hg]]
      exact hfb
    | binaryMissing => exact absurd hg h
    | completed rc out parsed =>
      by_cases hc : rc = 0 ∧ pyStrip out ≠ ""
      · cases parsed with
        | some d => exact ⟨d, by simp [get_file_date, hg, if_pos hc]⟩
        | none =>
          rw [show get_file_date fe = fsFallback fe by
            simp [get_file_date, hg, if_pos hc]]
          exact hfb
      · rw [show get_file_date fe = fsFallback fe by
          simp [get_file_date, hg, if_neg hc]]
        exact hfb
  · intro hg
    simp [get_file_date, hg]
  · intro hg
    simp [get_file_date, hg]
  · intro hg
    simp [get_file_date, hg]
  · intro rc out parsed hg
    constructor
    · intro hc
      simp [get_file_date, hg, if_neg hc]
    · intro hp
      subst hp
      by_cases hc : rc = 0 ∧ pyStrip out ≠ ""
      · simp [get_file_date, hg, if_pos hc]
      · simp [get_file_date, hg, if_neg hc]
  · intro hfs
    simp [fsFallback, hfs]

theorem c3_witness :
    get_file_date ⟨true, .timeoutExpired, .osError, none⟩ = .ok datetime_min := by
  have h := c3_theorem ⟨true, .timeoutExpired, .osError, none⟩
  rw [h.2.2.1 rfl, h.2.2.2.2.2.2 rfl]

/-! ## Claim C5 -/

/-- **C5, counterexample.**  The claim quantifies over *every* document
containing the directive `\acrodef{FOO}{Full Form}`.  In the document
`\acrodef{A}{x\acrodef{FOO}{Full Form}` — which contains that directive
verbatim — the enclosing directive's greedy body pattern (`[^}]` also
matches `{`) consumes `x\acrodef{FOO` and closes at the first `}`, so
extraction reports one entry labelled `A` with raw text
`\acrodef{A}{x\acrodef{FOO}` and **no** entry labelled `FOO`. -/
theorem c5_counterexample :
    ("\\acrodef\x7bA\x7d\x7bx" ++ "\\acrodef\x7bFOO\x7d\x7bFull Form\x7d" : String)
        = "\\acrodef\x7bA\x7d\x7bx\\acrodef\x7bFOO\x7d\x7bFull Form\x7d" ∧
    (read_acrodefs (some "\\acrodef\x7bA\x7d\x7bx\\acrodef\x7bFOO\x7d\x7bFull Form\x7d")
        ⟨2024, 5, 1, 0, .naive⟩ "defs.tex").filter (fun e => e.label = "FOO") = [] ∧
    read_acrodefs (some "\\acrodef\x7bA\x7d\x7bx\\acrodef\x7bFOO\x7d\x7bFull Form\x7d")
        ⟨2024, 5, 1, 0, .naive⟩ "defs.tex"
      = [⟨"A", "\\acrodef\x7bA\x7d\x7bx\\acrodef\x7bFOO\x7d", "acrodef",
          ⟨2024, 5, 1, 0, .naive⟩, "defs.tex"⟩] := by
  refine ⟨rfl, ?_, read_acrodefs_doc0 _ _⟩
  rw [read_acrodefs_doc0]
  decide

/-- **C5 (amended).**  For a document `pre ++ \acrodef{FOO}{Full Form} ++
post` whose surrounding context contains no backslash (in particular a
trailing depth-1 brace group such as `{note}` directly after the
directive), extraction yields exactly one entry, labelled `FOO`, whose raw
text is the full directive. -/
theorem c5_theorem (pre post : List Char) (hpre : '\\' ∉ pre)
    (hpost : '\\' ∉ post) (d : PyDateTime) (p : String) :
    read_acrodefs (some ⟨pre ++ ("\\acrodef\x7bFOO\x7d\x7bFull Form\x7d".data ++ post)⟩) d p
      = [⟨"FOO", "\\acrodef\x7bFOO\x7d\x7bFull Form\x7d", "acrodef", d, p⟩] :=
  read_acrodefs_directive pre post hpre hpost d p

theorem c5_witness :
    read_acrodefs
        (some ⟨"Intro, ".data ++
          ("\\acrodef\x7bFOO\x7d\x7bFull Form\x7d".data ++ "\x7bnote\x7d end.".data)⟩)
        ⟨2024, 5, 1, 0, .naive⟩ "defs.tex"
      = [⟨"FOO", "\\acrodef\x7bFOO\x7d\x7bFull Form\x7d", "acrodef",
          ⟨2024, 5, 1, 0, .naive⟩, "defs.tex"⟩] :=
  c5_theorem "Intro, ".data "\x7bnote\x7d end.".data (by decide) (by decide) _ _

/-! ## Claim C6 -/

/-- **C6.**  The claim (and the spec) require all three patterns to tolerate
one level of nested `{...}` inside the captured body.  They do not: because
`[^}]` also matches `{`, the greedy prefix consumes every `{` and the match
succeeds at the *first* `}` without ever backtracking into the nested-group
subpattern, so each of the three directives below is truncated there.  The
theorem evaluates the code on the failing inputs, documenting the
divergence. -/
theorem c6_theorem :
    read_acrodefs (some "\\acrodef\x7bAB\x7d\x7bFull \x7bnested\x7d Form\x7d")
        ⟨2024, 5, 1, 0, .naive⟩ "defs.tex"
      = [⟨"AB", "\\acrodef\x7bAB\x7d\x7bFull \x7bnested\x7d", "acrodef",
          ⟨2024, 5, 1, 0, .naive⟩, "defs.tex"⟩] ∧
    read_acrodefs (some "\\newacronym\x7bGCD\x7d\x7bGCD\x7d\x7bGreatest \x7bCommon\x7d Divisor\x7d")
        ⟨2024, 5, 1, 0, .naive⟩ "defs.tex"
      = [⟨"GCD", "\\newacronym\x7bGCD\x7d\x7bGCD\x7d\x7bGreatest \x7bCommon\x7d", "newacronym",
          ⟨2024, 5, 1, 0, .naive⟩, "defs.tex"⟩] ∧
    read_acrodefs (some "\\newcommand\x7b\\cmd\x7d\x7bFull \x7bnested\x7d Form\x7d")
        ⟨2024, 5, 1, 0, .naive⟩ "defs.tex"
      = [⟨"\\cmd", "\\newcommand\x7b\\cmd\x7d\x7bFull \x7bnested\x7d", "newcommand",
          ⟨2024, 5, 1, 0, .naive⟩, "defs.tex"⟩] :=
  ⟨read_acrodefs_nested_acrodef _ _, read_acrodefs_nested_newacronym _ _,
    read_acrodefs_nested_newcommand _ _⟩

/-! ## Claim C7 -/

/-- **C7.**  The writer emits the category groups in the fixed order
`acrodef`, `newacronym`, `newcommand`; an empty group contributes no chunks
at all (no section header); a nonempty group is its header followed by its
entries; and within every group the entries are sorted by label in
non-descending default string order. -/
theorem c7_theorem (m : MapT) (now : String) :
    (write_consolidated_file m now
      = headerChunks now ++
        sectionChunks "% Acronyms (acrodef)\n" (groupOf m "acrodef") ++
        sectionChunks "% Acronyms (newacronym)\n" (groupOf m "newacronym") ++
        sectionChunks "% Commands\n" (groupOf m "newcommand")) ∧
    (∀ h : String, sectionChunks h [] = []) ∧
    (∀ t h, groupOf m t ≠ [] →
      sectionChunks h (groupOf m t)
        = h :: ((sortByLabel (groupOf m t)).flatMap entryChunks ++ ["\n"])) ∧
    (∀ t, List.Pairwise (fun a b => a.1 ≤ b.1) (sortByLabel (groupOf m t))) := by
  refine ⟨rfl, fun h => by simp [sectionChunks],
    fun t h hne => by simp [sectionChunks, hne], fun t => ?_⟩
  have hs := List.sorted_insertionSort
    (r := fun (a b : String × Stored) => a.1 ≤ b.1) (groupOf m t)
  simpa [sortByLabel, List.Sorted] using hs

theorem c7_witness :
    sectionChunks "% Acronyms (acrodef)\n"
        (groupOf
          [("B", ⟨"\\acrodef\x7bB\x7d\x7bBeta\x7d", "acrodef", ⟨2024, 1, 2, 0, .naive⟩, "b.tex"⟩),
           ("A", ⟨"\\acrodef\x7bA\x7d\x7bAlpha\x7d", "acrodef", ⟨2024, 1, 3, 0, .naive⟩, "a.tex"⟩)]
          "acrodef")
      = "% Acronyms (acrodef)\n" ::
        ((sortByLabel (groupOf
            [("B", ⟨"\\acrodef\x7bB\x7d\x7bBeta\x7d", "acrodef", ⟨2024, 1, 2, 0, .naive⟩, "b.tex"⟩),
             ("A", ⟨"\\acrodef\x7bA\x7d\x7bAlpha\x7d", "acrodef", ⟨2024, 1, 3, 0, .naive⟩, "a.tex"⟩)]
            "acrodef")).flatMap entryChunks ++ ["\n"]) ∧
    List.Pairwise (fun a b => a.1 ≤ b.1)
      (sortByLabel (groupOf
        [("B", ⟨"\\acrodef\x7bB\x7d\x7bBeta\x7d", "acrodef", ⟨2024, 1, 2, 0, .naive⟩, "b.tex"⟩),
         ("A", ⟨"\\acrodef\x7bA\x7d\x7bAlpha\x7d", "acrodef", ⟨2024, 1, 3, 0, .naive⟩, "a.tex"⟩)]
        "acrodef")) :=
  ⟨(c7_theorem
      [("B", ⟨"\\acrodef\x7bB\x7d\x7bBeta\x7d", "acrodef", ⟨2024, 1, 2, 0, .naive⟩, "b.tex"⟩),
       ("A", ⟨"\\acrodef\x7bA\x7d\x7bAlpha\x7d", "acrodef", ⟨2024, 1, 3, 0, .naive⟩, "a.tex"⟩)]
      "2024-06-01 12:00:00").2.2.1 "acrodef" "% Acronyms (acrodef)\n" (by decide),
   (c7_theorem
      [("B", ⟨"\\acrodef\x7bB\x7d\x7bBeta\x7d", "acrodef", ⟨2024, 1, 2, 0, .naive⟩, "b.tex"⟩),
       ("A", ⟨"\\acrodef\x7bA\x7d\x7bAlpha\x7d", "acrodef", ⟨2024, 1, 3, 0, .naive⟩, "a.tex"⟩)]
      "2024-06-01 12:00:00").2.2.2 "acrodef"⟩


theorem c4_witness :
    (∃ ds, mergeEntries
        [⟨"L", "\\acrodef\x7bL\x7d\x7bAlpha\x7d", "acrodef", datetime_min, "a.tex"⟩,
         ⟨"L", "\\acrodef\x7bL\x7d\x7bBeta\x7d", "acrodef", ⟨2024, 1, 1, 0, .naive⟩, "b.tex"⟩]
        ([], [])
      = .ok ([("L", Entry.toStored ⟨"L", "\\acrodef\x7bL\x7d\x7bBeta\x7d", "acrodef",
          ⟨2024, 1, 1, 0, .naive⟩, "b.tex"⟩)], ds)) ∧
    (∃ ds, mergeEntries
        [⟨"L", "\\acrodef\x7bL\x7d\x7bBeta\x7d", "acrodef", ⟨2024, 1, 1, 0, .naive⟩, "b.tex"⟩,
         ⟨"L", "\\acrodef\x7bL\x7d\x7bAlpha\x7d", "acrodef", datetime_min, "a.tex"⟩]
        ([], [])
      = .ok ([("L", Entry.toStored ⟨"L", "\\acrodef\x7bL\x7d\x7bBeta\x7d", "acrodef",
          ⟨2024, 1, 1, 0, .naive⟩, "b.tex"⟩)], ds)) :=
  c4_theorem
    ⟨"L", "\\acrodef\x7bL\x7d\x7bAlpha\x7d", "acrodef", datetime_min, "a.tex"⟩
    ⟨"L", "\\acrodef\x7bL\x7d\x7bBeta\x7d", "acrodef", ⟨2024, 1, 1, 0, .naive⟩, "b.tex"⟩
    (by decide) (by decide) (by decide) (by decide) (by decide) (by decide)

/-! ## Claim C8 -/

/-- An entry of a group contributes its provenance comment line to that
group's section. -/
theorem provLine_mem_section (h : String) (grp : List (String × Stored))
    (q : String × Stored) (hq : q ∈ grp) :
    ("% Last updated: " ++ fmtDate q.2.date ++ " from " ++
        short_source q.2.source ++ "\n")
      ∈ sectionChunks h grp := by
  rw [sectionChunks, if_neg (List.ne_nil_of_mem hq)]
  refine List.mem_cons_of_mem _ (List.mem_append_left _ ?_)
  refine List.mem_flatMap.mpr ⟨q, ?_, ?_⟩
  · show q ∈ List.insertionSort _ grp
    exact (List.Perm.mem_iff (List.perm_insertionSort _ _)).mpr hq
  · simp [entryChunks]

/-- **C8, counterexample.**  The claim says only a *leading* `../../` is
stripped from the source path.  `str.replace` removes every occurrence: for
source `a/../../b.tex` the written line carries `a/b.tex`, and the line the
claim describes (with the non-leading `../../` intact) is not written. -/
theorem c8_counterexample :
    leadingStrip "a/../../b.tex" = "a/../../b.tex" ∧
    ("% Last updated: 2024-01-02 from a/../../b.tex\n" ∉
      write_consolidated_file
        [("L", ⟨"\\acrodef\x7bL\x7d\x7bX\x7d", "acrodef", ⟨2024, 1, 2, 0, .naive⟩,
          "a/../../b.tex"⟩)] "2024-06-01 12:00:00") ∧
    ("% Last updated: 2024-01-02 from a/b.tex\n" ∈
      write_consolidated_file
        [("L", ⟨"\\acrodef\x7bL\x7d\x7bX\x7d", "acrodef", ⟨2024, 1, 2, 0, .naive⟩,
          "a/../../b.tex"⟩)] "2024-06-01 12:00:00") := by
  refine ⟨rfl, by decide, by decide⟩

/-- **C8 (amended).**  Every written entry gets a provenance comment line
with its date formatted `YYYY-MM-DD` and its source path with **every**
occurrence of `../../` removed (Python `str.replace` semantics), not only a
leading one. -/
theorem c8_theorem (m : MapT) (now : String) (q : String × Stored) (hq : q ∈ m)
    (ht : q.2.def_type = "acrodef" ∨ q.2.def_type = "newacronym" ∨
      q.2.def_type = "newcommand") :
    ("% Last updated: " ++ fmtDate q.2.date ++ " from " ++
        short_source q.2.source ++ "\n")
      ∈ write_consolidated_file m now := by
  rcases ht with ht | ht | ht
  · refine List.mem_append_left _ (List.mem_append_left _
      (List.mem_append_right _ ?_))
    exact provLine_mem_section _ _ q (List.mem_filter.mpr ⟨hq, by simp [ht]⟩)
  · refine List.mem_append_left _ (List.mem_append_right _ ?_)
    exact provLine_mem_section _ _ q (List.mem_filter.mpr ⟨hq, by simp [ht]⟩)
  · refine List.mem_append_right _ ?_
    exact provLine_mem_section _ _ q (List.mem_filter.mpr ⟨hq, by simp [ht]⟩)

theorem c8_witness :
    ("% Last updated: " ++
        fmtDate (⟨"\\acrodef\x7bL\x7d\x7bX\x7d", "acrodef", ⟨2024, 1, 2, 0, .naive⟩,
          "a/../../b.tex"⟩ : Stored).date ++ " from " ++
        short_source (⟨"\\acrodef\x7bL\x7d\x7bX\x7d", "acrodef", ⟨2024, 1, 2, 0, .naive⟩,
          "a/../../b.tex"⟩ : Stored).source ++ "\n")
      ∈ write_consolidated_file
          [("L", ⟨"\\acrodef\x7bL\x7d\x7bX\x7d", "acrodef", ⟨2024, 1, 2, 0, .naive⟩,
            "a/../../b.tex"⟩)] "2024-06-01 12:00:00" :=
  c8_theorem
    [("L", ⟨"\\acrodef\x7bL\x7d\x7bX\x7d", "acrodef", ⟨2024, 1, 2, 0, .naive⟩,
      "a/../../b.tex"⟩)] "2024-06-01 12:00:00"
    ("L", ⟨"\\acrodef\x7bL\x7d\x7bX\x7d", "acrodef", ⟨2024, 1, 2, 0, .naive⟩,
      "a/../../b.tex"⟩)
    (by decide) (by decide)

/-! ## Claim C9: supporting lemmas -/

theorem read_acrodefs_dates (c : Option String) (d : PyDateTime) (p : String) :
    ∀ e ∈ read_acrodefs c d p, e.file_date = d := by
  intro e he
  cases c with
  | none => simp [read_acrodefs] at he
  | some s =>
    rw [read_acrodefs_some] at he
    rcases List.mem_append.mp he with he | he
    · rcases List.mem_append.mp he with he | he <;>
        · obtain ⟨a, -, rfl⟩ := List.mem_map.mp he
          rfl
    · obtain ⟨a, -, rfl⟩ := List.mem_map.mp he
      rfl

/-- If every date in sight is naive, the merge cannot raise. -/
theorem mergeEntries_ok_naive (es : List Entry) :
    ∀ (st : MapT × List Diag),
    (∀ q ∈ st.1, q.2.date.tz = .naive) →
    (∀ e ∈ es, e.file_date.tz = .naive) →
    ∃ st', mergeEntries es st = .ok st' ∧ ∀ q ∈ st'.1, q.2.date.tz = .naive := by
  induction es with
  | nil => exact fun st h1 _ => ⟨st, mergeEntries_nil _, h1⟩
  | cons e es ih =>
    intro st h1 h2
    have he : e.file_date.tz = .naive := h2 e (List.mem_cons_self _ _)
    have h2' : ∀ x ∈ es, x.file_date.tz = .naive :=
      fun x hx => h2 x (List.mem_cons_of_mem _ hx)
    rcases st with ⟨m, ds⟩
    cases hlook : m.lookup e.label with
    | none =>
      rw [mergeEntries_cons_ok _ _ _ _ (mergeStep_not_found m ds e hlook)]
      refine ih _ (fun q hq => ?_) h2'
      rcases List.mem_append.mp hq with hmem | hmem
      · exact h1 q hmem
      · rw [List.mem_singleton.mp hmem]
        exact he
    | some ex =>
      have hexn : ex.date.tz = .naive := h1 (e.label, ex) (lookup_mem _ _ _ hlook)
      by_cases hdef : e.definition = ex.definition
      · rw [mergeEntries_cons_ok _ _ _ _ (mergeStep_found_eq m ds e ex hlook hdef)]
        exact ih _ h1 h2'
      · have hstep := mergeStep_found_ne m ds e ex hlook hdef (by rw [he, hexn])
        by_cases hlt : dateLtB ex.date e.file_date
        · rw [if_pos hlt] at hstep
          rw [mergeEntries_cons_ok _ _ _ _ hstep]
          refine ih _ (fun q hq => ?_) h2'
          rcases mem_updateA _ _ _ _ hq with hmem | hmem
          · exact h1 q hmem
          · rw [hmem]
            exact he
        · rw [if_neg hlt] at hstep
          rw [mergeEntries_cons_ok _ _ _ _ hstep]
          exact ih _ h1 h2'

/-- One driver iteration succeeds and keeps the mapping all-naive whenever
every path's date resolves to a naive instant. -/
theorem processLine_ok (files : String → FileEnv) (line : String)
    (hgit : ∀ p, ∃ d, get_file_date (files p) = .ok d ∧ d.tz = .naive)
    (st : MapT × List Diag) (hst : ∀ q ∈ st.1, q.2.date.tz = .naive) :
    ∃ st', processLine files st line = .ok st' ∧
      ∀ q ∈ st'.1, q.2.date.tz = .naive := by
  unfold processLine
  by_cases h1 : pyStrip line = ""
  · rw [if_pos h1]
    exact ⟨st, rfl, hst⟩
  · rw [if_neg h1]
    by_cases h2 : startsWithHash (pyStrip line) = true
    · rw [if_pos h2]
      exact ⟨st, rfl, hst⟩
    · rw [if_neg h2]
      by_cases h3 : (files (pyStrip line)).path_exists = true
      · rw [if_pos h3]
        obtain ⟨d, hd, hdn⟩ := hgit (pyStrip line)
        have hdates : ∀ x ∈ read_acrodefs (files (pyStrip line)).content d
            (pyStrip line), x.file_date.tz = .naive := by
          intro x hx
          rw [read_acrodefs_dates _ _ _ x hx]
          exact hdn
        obtain ⟨st', hst', hinv⟩ := mergeEntries_ok_naive _ st hst hdates
        refine ⟨st', ?_, hinv⟩
        rw [hd]
        exact hst'
      · rw [if_neg h3]
        exact ⟨st, rfl, hst⟩

theorem foldlM_processLine_ok (lines : List String) (files : String → FileEnv)
    (hgit : ∀ p, ∃ d, get_file_date (files p) = .ok d ∧ d.tz = .naive) :
    ∀ (st : MapT × List Diag), (∀ q ∈ st.1, q.2.date.tz = .naive) →
    ∃ st', lines.foldlM (processLine files) st = .ok st' := by
  induction lines with
  | nil => exact fun st _ => ⟨st, rfl⟩
  | cons line rest ih =>
    intro st hst
    obtain ⟨st', hst', hinv⟩ := processLine_ok files line hgit st hst
    obtain ⟨st'', hst''⟩ := ih st' hinv
    refine ⟨st'', ?_⟩
    rw [List.foldlM_cons, hst']
    exact hst''

/-! ## Claim C9 -/

/-- **C9, counterexample.**  The claim says only a missing or unreadable
list file aborts the run, and every *per-file* failure still lets the run
complete and write output.  A per-file failure refutes it: the list file is
readable and names one existing file, but the `git` binary is absent, so
`get_file_date` raises `FileNotFoundError`, which nothing catches — the run
aborts with a nonzero outcome and the write step is never reached. -/
theorem c9_counterexample :
    run_main
        ⟨some ["a.tex"],
          fun _ => ⟨true, .binaryMissing, .mtime 2024 5 1 0, none⟩⟩
        "2024-06-01 12:00:00"
      = .error .fileNotFoundError := by decide

/-- **C9 (amended).**  If the input list file is missing or unreadable the
run aborts with a nonzero outcome before the write step, so no output is
produced.  If the list file is readable and every path's timestamp resolves
(no absent-binary exception) to a naive instant — as it does whenever the
git lookup falls through to the filesystem — the run completes and writes
an output file; but an absent git binary or a naive/aware timestamp mix
among conflicting entries also aborts the run with no output. -/
theorem c9_theorem (env : Env) (now : String) :
    (env.list_file = none → run_main env now = .error .ioError) ∧
    (∀ lines, env.list_file = some lines →
      (∀ p, ∃ d, get_file_date (env.files p) = .ok d ∧ d.tz = .naive) →
      ∃ out, run_main env now = .ok out) := by
  constructor
  · intro h
    unfold run_main consolidate_acrodefs
    rw [h]
    rfl
  · intro lines hl hgit
    obtain ⟨st, hst⟩ :=
      foldlM_processLine_ok lines env.files hgit ([], []) (by intro q hq; simp at hq)
    refine ⟨write_consolidated_file st.1 now, ?_⟩
    have hmain : run_main env now =
        (List.foldlM (processLine env.files) ([], []) lines).bind
          (fun st => Except.ok (write_consolidated_file st.1 now)) := by
      unfold run_main consolidate_acrodefs
      rw [hl]
      rfl
    rw [hmain, hst]
    rfl

theorem c9_witness :
    (run_main ⟨none, fun _ => ⟨true, .timeoutExpired, .osError, none⟩⟩
        "2024-06-01 12:00:00" = .error .ioError) ∧
    (∃ out, run_main
        ⟨some ["a.tex"],
          fun _ => ⟨true, .timeoutExpired, .mtime 2024 5 1 0, some "\\acrodef\x7bX\x7d\x7bY\x7d"⟩⟩
        "2024-06-01 12:00:00" = .ok out) :=
  ⟨(c9_theorem ⟨none, fun _ => ⟨true, .timeoutExpired, .osError, none⟩⟩
      "2024-06-01 12:00:00").1 rfl,
   (c9_theorem ⟨some ["a.tex"],
      fun _ => ⟨true, .timeoutExpired, .mtime 2024 5 1 0, some "\\acrodef\x7bX\x7d\x7bY\x7d"⟩⟩
      "2024-06-01 12:00:00").2 ["a.tex"] rfl
      (fun _ => ⟨⟨2024, 5, 1, 0, .naive⟩, rfl, rfl⟩)⟩

end Consolidate
